import Mathlib

/-!
# Verification of the HAP deploy-gate protocol core

A shallow embedding, in Lean 4, of the protocol engine of the
`hap-deploy-gate-demo` repository: path and disclosure canonicalization
(`packages/hap-core/src/disclosure.ts`), frame canonicalization and
validation (`packages/hap-core/src/frame.ts`), attestation blob codec,
text-block parsing and verification (`packages/hap-core/src/attestation.ts`),
decision-owner scope coverage (server attest route), the SDG rule engine
(`apps/ui/src/sdg/runner.ts`), and attestation issuance
(`apps/server/src/app/api/sp/attest/route.ts`).

JavaScript strings are modelled as `String`/`List Char`, numbers that hold
Unix timestamps as `Nat`, thrown exceptions as `Except`, and `null` results
as `Option`.  Platform primitives that the repository only calls — SHA-256,
Ed25519 and `JSON.stringify`/`JSON.parse` — are passed in as function
parameters; everything the repository itself computes (regex-equivalent
field checks, base64url transport coding, key=value block parsing,
canonical ordering) is defined concretely below, translated from the
TypeScript sources.
-/

namespace HapCore

/-! ## Generic list/string helpers used by several embedded functions -/

/-- First index (if any) at which character `c` occurs, as `String.indexOf`. -/
def charIndexOf (c : Char) : List Char → Option Nat
  | [] => none
  | d :: rest =>
    if d = c then some 0
    else match charIndexOf c rest with
      | some i => some (i + 1)
      | none => none

/-- Does `pat` occur at the head of `l`? -/
def headMatches : List Char → List Char → Bool
  | [], _ => true
  | _ :: _, [] => false
  | p :: ps, c :: cs => p = c && headMatches ps cs

/-- First index at which the pattern occurs, as `String.indexOf` on substrings. -/
def subIndexOf (pat : List Char) : List Char → Option Nat
  | [] => if pat = [] then some 0 else none
  | c :: rest =>
    if headMatches pat (c :: rest) then some 0
    else match subIndexOf pat rest with
      | some i => some (i + 1)
      | none => none

/-- `s.slice a b` of JavaScript for `0 ≤ a ≤ b` (empty when `b ≤ a`). -/
def sliceList (l : List Char) (a b : Nat) : List Char :=
  (l.drop a).take (b - a)

/-- Whitespace in the sense of `String.prototype.trim` (ASCII part). -/
def jsIsWs (c : Char) : Bool :=
  c = ' ' || c = '\t' || c = '\n' || c = '\r' || c = '\x0b' || c = '\x0c'

/-- `String.prototype.trim`. -/
def jsTrim (l : List Char) : List Char :=
  ((l.dropWhile jsIsWs).reverse.dropWhile jsIsWs).reverse

/-- `String.prototype.split(sep)` for a single-character separator. -/
def splitOnChar (sep : Char) : List Char → List (List Char)
  | [] => [[]]
  | c :: rest =>
    match splitOnChar sep rest with
    | [] => if c = sep then [[], []] else [[c]]
    | g :: gs => if c = sep then [] :: g :: gs else (c :: g) :: gs

/-- Association-list lookup, as property access on a plain JS object. -/
def alookup {β : Type} (k : String) : List (String × β) → Option β
  | [] => none
  | (k', v) :: rest => if k' = k then some v else alookup k rest

theorem alookup_isSome_iff_mem_keys {β : Type} (k : String) (l : List (String × β)) :
    (alookup k l).isSome = true ↔ k ∈ l.map Prod.fst := by
  induction l with
  | nil => simp [alookup]
  | cons p rest ih =>
    obtain ⟨k', v⟩ := p
    by_cases h : k' = k
    · subst h; simp [alookup]
    · simp [alookup, h, ih, Ne.symm h]

theorem mem_iff_alookup {β : Type} {l : List (String × β)} (hnd : (l.map Prod.fst).Nodup)
    (k : String) (v : β) : (k, v) ∈ l ↔ alookup k l = some v := by
  induction l with
  | nil => simp [alookup]
  | cons p rest ih =>
    obtain ⟨k', v'⟩ := p
    simp only [List.map_cons, List.nodup_cons] at hnd
    simp only [alookup, List.mem_cons, Prod.mk.injEq]
    by_cases h : k' = k
    · rw [if_pos h]
      constructor
      · rintro (⟨-, hv⟩ | hm)
        · exact congrArg some hv.symm
        · exact absurd (List.mem_map.mpr ⟨(k, v), hm, rfl⟩) (h ▸ hnd.1)
      · intro hv
        exact Or.inl ⟨h.symm, (Option.some.inj hv).symm⟩
    · rw [if_neg h]
      rw [ih hnd.2]
      constructor
      · rintro (⟨hk, -⟩ | hm)
        · exact absurd hk.symm h
        · exact hm
      · intro hm; exact Or.inr hm

theorem alookup_eq_of_perm {β : Type} {l1 l2 : List (String × β)}
    (hnd : (l1.map Prod.fst).Nodup) (hp : l1.Perm l2) (k : String) :
    alookup k l1 = alookup k l2 := by
  have hnd2 : (l2.map Prod.fst).Nodup := ((hp.map Prod.fst).nodup_iff).mp hnd
  cases hcase : alookup k l1 with
  | some v =>
    exact ((mem_iff_alookup hnd2 k v).mp (hp.mem_iff.mp ((mem_iff_alookup hnd k v).mpr hcase))).symm
  | none =>
    have h1 : k ∉ l1.map Prod.fst := by
      intro hm
      have := (alookup_isSome_iff_mem_keys k l1).mpr hm
      rw [hcase] at this
      simp at this
    have h2 : k ∉ l2.map Prod.fst := fun hm => h1 ((hp.map Prod.fst).mem_iff.mpr hm)
    have : ¬(alookup k l2).isSome = true := fun hs => h2 ((alookup_isSome_iff_mem_keys k l2).mp hs)
    exact (Option.not_isSome_iff_eq_none.mp this).symm

instance exceptDecidableEq {ε α : Type} [DecidableEq ε] [DecidableEq α] :
    DecidableEq (Except ε α)
  | .ok a, .ok b =>
    if h : a = b then isTrue (by rw [h]) else isFalse (fun hc => h (Except.ok.inj hc))
  | .error e, .error f =>
    if h : e = f then isTrue (by rw [h]) else isFalse (fun hc => h (Except.error.inj hc))
  | .ok _, .error _ => isFalse Except.noConfusion
  | .error _, .ok _ => isFalse Except.noConfusion

/-- `mapM` over `Except` written with explicit matches: models a JS `.map`
whose callback may throw (the first exception aborts the whole map). -/
def mapExcept {α β ε : Type} (f : α → Except ε β) : List α → Except ε (List β)
  | [] => .ok []
  | a :: rest =>
    match f a with
    | .error e => .error e
    | .ok b =>
      match mapExcept f rest with
      | .error e => .error e
      | .ok bs => .ok (b :: bs)

/-- Strict lexicographic order on character lists by code point; this is the
order underlying the default (comparator-less) `Array.prototype.sort` on
strings.  Defined from scratch so that it evaluates inside the kernel. -/
def lexLt : List Char → List Char → Bool
  | _, [] => false
  | [], _ :: _ => true
  | x :: xs, y :: ys =>
    decide (x.toNat < y.toNat) || (decide (x.toNat = y.toNat) && lexLt xs ys)

/-- The comparator used by every `.sort()` call of the embedded code. -/
def jsLe (s t : String) : Bool := !(lexLt t.data s.data)

theorem char_eq_of_toNat_eq {x y : Char} (h : x.toNat = y.toNat) : x = y :=
  Char.ext (UInt32.ext h)

theorem lexLt_trans : ∀ a b c : List Char,
    lexLt a b = true → lexLt b c = true → lexLt a c = true := by
  intro a
  induction a with
  | nil =>
    intro b c hab hbc
    cases b with
    | nil => exact hbc
    | cons y ys =>
      cases c with
      | nil => simp [lexLt] at hbc
      | cons z zs => simp [lexLt]
  | cons x xs ih =>
    intro b c hab hbc
    cases b with
    | nil => simp [lexLt] at hab
    | cons y ys =>
      cases c with
      | nil => simp [lexLt] at hbc
      | cons z zs =>
        simp only [lexLt, Bool.or_eq_true, Bool.and_eq_true, decide_eq_true_eq] at hab hbc ⊢
        rcases hab with h1 | ⟨h1, h1r⟩ <;> rcases hbc with h2 | ⟨h2, h2r⟩
        · exact Or.inl (h1.trans h2)
        · exact Or.inl (h2 ▸ h1)
        · exact Or.inl (h1 ▸ h2)
        · exact Or.inr ⟨h1.trans h2, ih ys zs h1r h2r⟩

theorem lexLt_connex : ∀ a b : List Char, lexLt a b = true ∨ a = b ∨ lexLt b a = true := by
  intro a
  induction a with
  | nil =>
    intro b
    cases b with
    | nil => exact Or.inr (Or.inl rfl)
    | cons y ys => exact Or.inl (by simp [lexLt])
  | cons x xs ih =>
    intro b
    cases b with
    | nil => exact Or.inr (Or.inr (by simp [lexLt]))
    | cons y ys =>
      rcases Nat.lt_trichotomy x.toNat y.toNat with h | h | h
      · exact Or.inl (by simp [lexLt, h])
      · rcases ih ys with h' | h' | h'
        · exact Or.inl (by simp [lexLt, h, h'])
        · exact Or.inr (Or.inl (by rw [char_eq_of_toNat_eq h, h']))
        · exact Or.inr (Or.inr (by simp [lexLt, h.symm, h']))
      · exact Or.inr (Or.inr (by simp [lexLt, h]))

theorem lexLt_irrefl : ∀ a : List Char, lexLt a a = false := by
  intro a
  induction a with
  | nil => rfl
  | cons x xs ih => simp [lexLt, ih]

theorem lexLt_asymm : ∀ a b : List Char, lexLt a b = true → lexLt b a = false := by
  intro a b hab
  by_contra h
  have hba : lexLt b a = true := by
    cases hc : lexLt b a
    · exact absurd hc h
    · rfl
  have := lexLt_trans a b a hab hba
  rw [lexLt_irrefl] at this
  exact Bool.false_ne_true this

/-- The relation fed to `List.insertionSort` when modelling `.sort()`. -/
def jsLeRel : String → String → Prop := fun s t => jsLe s t = true

instance : DecidableRel jsLeRel := fun s t => inferInstanceAs (Decidable (jsLe s t = true))

instance : IsTotal String jsLeRel where
  total := by
    intro s t
    unfold jsLeRel jsLe
    rcases lexLt_connex t.data s.data with h | h | h
    · right
      rw [lexLt_asymm t.data s.data h]
      rfl
    · left
      have : s = t := String.ext h.symm
      rw [this, lexLt_irrefl]
      rfl
    · left
      rw [lexLt_asymm s.data t.data h]
      rfl

instance : IsTrans String jsLeRel where
  trans := by
    intro s t u hst htu
    unfold jsLeRel jsLe at hst htu ⊢
    rw [Bool.not_eq_true'] at hst htu ⊢
    by_contra h
    have hus : lexLt u.data s.data = true := by
      cases hc : lexLt u.data s.data
      · exact absurd hc h
      · rfl
    rcases lexLt_connex t.data s.data with h1 | h1 | h1
    · rw [hst] at h1
      exact Bool.false_ne_true h1
    · rw [← h1, htu] at hus
      exact Bool.false_ne_true hus
    · have := lexLt_trans u.data s.data t.data hus h1
      rw [htu] at this
      exact Bool.false_ne_true this

instance : IsAntisymm String jsLeRel where
  antisymm := by
    intro s t hst hts
    unfold jsLeRel jsLe at hst hts
    rw [Bool.not_eq_true'] at hst hts
    rcases lexLt_connex s.data t.data with h | h | h
    · exact absurd h (by rw [hts]; exact Bool.false_ne_true)
    · exact String.ext h
    · exact absurd h (by rw [hst]; exact Bool.false_ne_true)

/-- `Array.prototype.sort()` on strings: insertion sort by `jsLeRel`
(extensionally equal to any correct sort by a total order). -/
def jsSort (l : List String) : List String := List.insertionSort jsLeRel l

/-- Two lists equal as permutations sort to the same list. -/
theorem jsSort_eq_of_perm {l1 l2 : List String} (h : l1.Perm l2) :
    jsSort l1 = jsSort l2 :=
  List.eq_of_perm_of_sorted
    ((List.perm_insertionSort _ l1).trans (h.trans (List.perm_insertionSort _ l2).symm))
    (List.sorted_insertionSort _ l1) (List.sorted_insertionSort _ l2)

end HapCore

namespace HapCore

/-! ## Path canonicalization (`packages/hap-core/src/disclosure.ts`,
    identical copy in the v0.3 disclosure module)

```ts
export function canonicalizePath(path: string): string {
  if (path.includes('..')) {
    throw new Error(`Invalid path "${path}": contains .. (escapes repo root)`);
  }
  return path
    .replace(/^\.\//, '')        // Remove leading ./
    .replace(/\/+/g, '/')        // Collapse duplicate slashes
    .replace(/\/$/, '');         // Remove trailing slash
}
```
-/

/-- `path.includes('..')`: does `..` occur as a (contiguous) substring? -/
def hasDotDot : List Char → Bool
  | [] => false
  | [_] => false
  | c1 :: c2 :: rest => (c1 = '.' && c2 = '.') || hasDotDot (c2 :: rest)

/-- `.replace(/^\.\//, '')` — strips one leading `./` occurrence (the regex is
not global and is anchored at the start). -/
def stripDotSlash : List Char → List Char
  | '.' :: '/' :: rest => rest
  | l => l

/-- `.replace(/\/+/g, '/')` — collapses every run of slashes to one slash. -/
def collapseSlashes : List Char → List Char
  | [] => []
  | [c] => [c]
  | c1 :: c2 :: rest =>
    if c1 = '/' && c2 = '/' then collapseSlashes (c2 :: rest)
    else c1 :: collapseSlashes (c2 :: rest)

/-- `.replace(/\/$/, '')` — removes one trailing slash. -/
def stripTrailingSlash : List Char → List Char
  | [] => []
  | ['/'] => []
  | c :: rest => c :: stripTrailingSlash rest

/-- `canonicalizePath` of `disclosure.ts`; the thrown `Error` is an `Except.error`
carrying the message. -/
def canonicalizePath (path : String) : Except String String :=
  if hasDotDot path.data then
    .error ("Invalid path \"" ++ path ++ "\": contains .. (escapes repo root)")
  else
    .ok (String.mk (stripTrailingSlash (collapseSlashes (stripDotSlash path.data))))

/-- `hasDotDot` is exactly "`..` occurs as a substring". -/
theorem hasDotDot_iff (l : List Char) :
    hasDotDot l = true ↔ ∃ u v : List Char, l = u ++ '.' :: '.' :: v := by
  induction l with
  | nil =>
    constructor
    · intro h; simp [hasDotDot] at h
    · rintro ⟨u, v, h⟩
      apply_fun List.length at h
      simp [List.length_append] at h
      omega
  | cons c1 rest ih =>
    cases rest with
    | nil =>
      constructor
      · intro h; simp [hasDotDot] at h
      · rintro ⟨u, v, h⟩
        apply_fun List.length at h
        simp [List.length_append] at h
        omega
    | cons c2 rest' =>
      simp only [hasDotDot, Bool.or_eq_true, Bool.and_eq_true, decide_eq_true_eq]
      rw [ih]
      constructor
      · rintro (⟨h1, h2⟩ | ⟨u, v, h⟩)
        · subst h1; subst h2; exact ⟨[], rest', rfl⟩
        · exact ⟨c1 :: u, v, by simp [h]⟩
      · rintro ⟨u, v, h⟩
        rcases u with _ | ⟨a, u'⟩
        · simp only [List.nil_append, List.cons.injEq] at h
          exact Or.inl ⟨h.1, h.2.1⟩
        · simp only [List.cons_append, List.cons.injEq] at h
          exact Or.inr ⟨u', v, h.2⟩
end HapCore

namespace HapCore

/-! ## Claims C5 and C6: behaviour of `canonicalizePath` -/

/-- **C5, counterexample.** The claim says `canonicalizePath` fails exactly
when the path contains a *segment* equal to `..`.  The source tests
`path.includes('..')`, i.e. any occurrence of the two-character substring:
`"a..b"` has no `..` segment (its only segment is `a..b`) yet the function
throws. -/
theorem canonicalizePath_segment_claim_false :
    (splitOnChar '/' "a..b".data).all (fun seg => decide (seg ≠ ['.', '.'])) = true
    ∧ (∀ s, canonicalizePath "a..b" ≠ .ok s) := by
  constructor
  · decide
  · intro s h
    rw [show canonicalizePath "a..b" =
      .error ("Invalid path \"" ++ "a..b" ++ "\": contains .. (escapes repo root)") from by
        decide] at h
    exact Except.noConfusion h

/-- **C5 (amended).** `canonicalizePath` fails exactly when the path contains
the two-character substring `..`; on every other path it returns the path with
one leading `./` occurrence stripped, every run of slashes collapsed to one,
and one trailing slash removed. -/
theorem canonicalizePath_spec (p : String) :
    ((∀ s, canonicalizePath p ≠ .ok s) ↔ ∃ u v : List Char, p.data = u ++ '.' :: '.' :: v)
    ∧ (hasDotDot p.data = false →
        canonicalizePath p =
          .ok (String.mk (stripTrailingSlash (collapseSlashes (stripDotSlash p.data))))) := by
  constructor
  · rw [← hasDotDot_iff]
    unfold canonicalizePath
    constructor
    · intro h
      cases hc : hasDotDot p.data
      · exact absurd (by rw [if_neg (by rw [hc]; exact Bool.false_ne_true)]) (h _)
      · rfl
    · intro h s
      rw [if_pos h]
      exact fun hcontra => Except.noConfusion hcontra
  · intro h
    unfold canonicalizePath
    rw [if_neg (by rw [h]; exact Bool.false_ne_true)]

/-- **C5, witness.** `".//foo/"` contains no `..`, and canonicalizes by
stripping the leading `./`, collapsing, and removing the trailing slash. -/
theorem canonicalizePath_spec_witness :
    hasDotDot ".//foo/".data = false ∧ canonicalizePath ".//foo/" = .ok "/foo" :=
  ⟨by decide, by rw [(canonicalizePath_spec ".//foo/").2 (by decide)]; decide⟩

/-- **C6 (code bug).** Path normalization is *not* idempotent: the leading
`./` strip uses a non-global anchored regex, so it removes only one `./`
occurrence per call.  `"././x"` normalizes to `"./x"`, which normalizes again
to `"x"` — the first output is not a fixed point. -/
theorem canonicalizePath_not_idempotent :
    canonicalizePath "././x" = .ok "./x"
    ∧ canonicalizePath "./x" = .ok "x"
    ∧ ("./x" : String) ≠ "x" :=
  ⟨by decide, by decide, by decide⟩

/-! ## Disclosure canonicalization (`packages/hap-core/src/disclosure.ts`)

The v0.2 `Disclosure` carries shared context plus a domain-keyed map of
`{problem, objective, tradeoffs}` texts.  `canonicalDisclosure` builds the
exact compact JSON string that `JSON.stringify` produces for the object
literal written in the source — keys in the literal's insertion order
`changed_paths, domains, repo, risk_flags, sha`, set-valued fields sorted,
domain keys sorted alphabetically. -/

structure DomainDisclosure where
  problem : String
  objective : String
  tradeoffs : String
deriving DecidableEq

structure Disclosure where
  repo : String
  sha : String
  changed_paths : List String
  risk_flags : List String
  domains : List (String × DomainDisclosure)
deriving DecidableEq

/-- `canonicalizePaths`: map `canonicalizePath` over the list (first throw
aborts), then `.sort()`. -/
def canonicalizePaths (paths : List String) : Except String (List String) :=
  match mapExcept canonicalizePath paths with
  | .error e => .error e
  | .ok cs => .ok (jsSort cs)

/-- `sortSetField`: copy and `.sort()`. -/
def sortSetField (values : List String) : List String := jsSort values

/-- One character of `JSON.stringify`'s string escaping. -/
def jsonEscapeChar (c : Char) : String :=
  if c = '"' then "\\\""
  else if c = '\\' then "\\\\"
  else if c = '\n' then "\\n"
  else if c = '\r' then "\\r"
  else if c = '\t' then "\\t"
  else if c = '\x08' then "\\b"
  else if c = '\x0c' then "\\f"
  else if c.toNat < 32 then
    "\\u00" ++ String.mk ["0123456789abcdef".data.getD (c.toNat / 16) '0',
                          "0123456789abcdef".data.getD (c.toNat % 16) '0']
  else String.singleton c

/-- `JSON.stringify` of a string value. -/
def jsonStr (s : String) : String :=
  "\"" ++ String.join (s.data.map jsonEscapeChar) ++ "\""

/-- `JSON.stringify` of an array of strings. -/
def jsonArr (xs : List String) : String :=
  "[" ++ String.intercalate "," (xs.map jsonStr) ++ "]"

/-- The canonical JSON of one domain entry:
`{"objective":…,"problem":…,"tradeoffs":…}` in the source's literal order. -/
def domainObjJson (d : DomainDisclosure) : String :=
  "\x7b\"objective\":" ++ jsonStr d.objective
    ++ ",\"problem\":" ++ jsonStr d.problem
    ++ ",\"tradeoffs\":" ++ jsonStr d.tradeoffs ++ "\x7d"

/-- `canonicalDisclosure` of `disclosure.ts`: sorted domain keys, canonical
paths, sorted risk flags, compact JSON with the literal's key order. -/
def canonicalDisclosure (d : Disclosure) : Except String String :=
  match canonicalizePaths d.changed_paths with
  | .error e => .error e
  | .ok cps =>
    .ok ("\x7b\"changed_paths\":" ++ jsonArr cps
      ++ ",\"domains\":\x7b"
      ++ String.intercalate ","
           ((jsSort (d.domains.map Prod.fst)).map (fun k =>
             jsonStr k ++ ":" ++ domainObjJson ((alookup k d.domains).getD ⟨"", "", ""⟩)))
      ++ "\x7d,\"repo\":" ++ jsonStr d.repo
      ++ ",\"risk_flags\":" ++ jsonArr (sortSetField d.risk_flags)
      ++ ",\"sha\":" ++ jsonStr d.sha ++ "\x7d")

/-- `disclosureHash`: SHA-256 (passed in as `sha256hex`) of the canonical
string, rendered as `sha256:<hex>`. -/
def disclosureHash (sha256hex : String → String) (d : Disclosure) : Except String String :=
  match canonicalDisclosure d with
  | .error e => .error e
  | .ok c => .ok ("sha256:" ++ sha256hex c)

theorem mapExcept_canonicalizePath_ok {paths : List String}
    (h : ∀ p ∈ paths, hasDotDot p.data = false) :
    mapExcept canonicalizePath paths =
      .ok (paths.map (fun p =>
        String.mk (stripTrailingSlash (collapseSlashes (stripDotSlash p.data))))) := by
  induction paths with
  | nil => rfl
  | cons p rest ih =>
    have hp : hasDotDot p.data = false := h p (List.mem_cons_self p rest)
    have hrest := ih (fun q hq => h q (List.mem_cons_of_mem p hq))
    simp only [mapExcept, List.map_cons]
    rw [show canonicalizePath p =
        .ok (String.mk (stripTrailingSlash (collapseSlashes (stripDotSlash p.data)))) from by
      unfold canonicalizePath
      rw [if_neg (by rw [hp]; exact Bool.false_ne_true)]]
    rw [hrest]

end HapCore

namespace HapCore

/-- **C7.** For every disclosure whose paths all normalize successfully,
`disclosureHash` is invariant under permutation of `changed_paths`, of
`risk_flags`, and of the domain map's entries: the canonical JSON strings are
identical, hence so are the hashes (for any hash function). -/
theorem disclosureHash_perm_invariant (sha256hex : String → String) (d1 d2 : Disclosure)
    (hrepo : d1.repo = d2.repo) (hsha : d1.sha = d2.sha)
    (hpaths : d1.changed_paths.Perm d2.changed_paths)
    (hflags : d1.risk_flags.Perm d2.risk_flags)
    (hdom : d1.domains.Perm d2.domains)
    (hnd : (d1.domains.map Prod.fst).Nodup)
    (hok : ∀ p ∈ d1.changed_paths, hasDotDot p.data = false) :
    canonicalDisclosure d1 = canonicalDisclosure d2
    ∧ (∃ s, canonicalDisclosure d1 = .ok s)
    ∧ disclosureHash sha256hex d1 = disclosureHash sha256hex d2 := by
  have hok2 : ∀ p ∈ d2.changed_paths, hasDotDot p.data = false :=
    fun p hp => hok p (hpaths.mem_iff.mpr hp)
  have hcp : canonicalizePaths d1.changed_paths = canonicalizePaths d2.changed_paths := by
    unfold canonicalizePaths
    rw [mapExcept_canonicalizePath_ok hok, mapExcept_canonicalizePath_ok hok2]
    exact congrArg _ (jsSort_eq_of_perm (hpaths.map _))
  have hdomkeys : jsSort (d1.domains.map Prod.fst) = jsSort (d2.domains.map Prod.fst) :=
    jsSort_eq_of_perm (hdom.map _)
  have hlk : ∀ k, alookup k d1.domains = alookup k d2.domains :=
    alookup_eq_of_perm hnd hdom
  have hmap : ((jsSort (d1.domains.map Prod.fst)).map (fun k =>
        jsonStr k ++ ":" ++ domainObjJson ((alookup k d1.domains).getD ⟨"", "", ""⟩)))
      = ((jsSort (d2.domains.map Prod.fst)).map (fun k =>
        jsonStr k ++ ":" ++ domainObjJson ((alookup k d2.domains).getD ⟨"", "", ""⟩))) := by
    rw [hdomkeys]
    exact List.map_congr_left (fun k _ => by rw [hlk k])
  have hflagsort : sortSetField d1.risk_flags = sortSetField d2.risk_flags :=
    jsSort_eq_of_perm hflags
  have hmain : canonicalDisclosure d1 = canonicalDisclosure d2 := by
    unfold canonicalDisclosure
    rw [hcp]
    cases hc : canonicalizePaths d2.changed_paths with
    | error e => rfl
    | ok cps =>
      rw [hrepo, hsha, hmap, hflagsort]
  refine ⟨hmain, ?_, ?_⟩
  · unfold canonicalDisclosure canonicalizePaths
    rw [mapExcept_canonicalizePath_ok hok]
    exact ⟨_, rfl⟩
  · unfold disclosureHash
    rw [hmain]

end HapCore

namespace HapCore

/-! ## Profiles (`packages/hap-core/src/profiles/deploy-gate.ts`)

Field `pattern`s are stored in the source as regex strings and compiled with
`new RegExp`.  The six regexes actually used are simple anchored
character-class patterns; each is modelled as the equivalent decidable
predicate, named after the field it validates. -/

structure ProfileFieldDef where
  pattern : String → Bool
  required : Bool
  allowedValues : Option (List String)

structure FrameSchema where
  keyOrder : List String
  fields : List (String × ProfileFieldDef)

structure ScopeReq where
  domain : String
  env : String
deriving DecidableEq

structure ExecutionPathDef where
  description : String
  requiredDomains : List String
  requiredScopes : List ScopeReq

/-- The parts of a `Profile` consulted by the embedded code paths (the
disclosure schema is only used by UI-side validation, not by any claim). -/
structure Profile where
  id : String
  version : String
  requiredGates : List String
  frameSchema : FrameSchema
  executionPaths : List (String × ExecutionPathDef)
  ttlDefault : Nat
  ttlMax : Nat

def isLowerChar (c : Char) : Bool := 'a' ≤ c && c ≤ 'z'
def isDigitChar (c : Char) : Bool := '0' ≤ c && c ≤ '9'
def isRepoChar (c : Char) : Bool := isLowerChar c || isDigitChar c || c = '_' || c = '.' || c = '-'
def isSlugChar (c : Char) : Bool := isLowerChar c || isDigitChar c || c = '_' || c = '-'
def isHexChar (c : Char) : Bool := ('a' ≤ c && c ≤ 'f') || isDigitChar c

/-- `^[a-z0-9_.-]+\/[a-z0-9_.-]+$` (the class excludes `/`, so the string is
exactly two nonempty class runs joined by one slash). -/
def rePatternRepo (s : String) : Bool :=
  match splitOnChar '/' s.data with
  | [p1, p2] => !p1.isEmpty && !p2.isEmpty && p1.all isRepoChar && p2.all isRepoChar
  | _ => false

/-- `^[a-f0-9]{40}$`. -/
def rePatternSha (s : String) : Bool :=
  (s.data.length == 40) && s.data.all isHexChar

/-- `^(prod|staging)$`. -/
def rePatternEnv (s : String) : Bool := s == "prod" || s == "staging"

/-- `^[a-z0-9_-]+@[0-9]+\.[0-9]+$`. -/
def rePatternProfileId (s : String) : Bool :=
  match splitOnChar '@' s.data with
  | [p1, p2] =>
    !p1.isEmpty && p1.all isSlugChar &&
      (match splitOnChar '.' p2 with
       | [d1, d2] => !d1.isEmpty && !d2.isEmpty && d1.all isDigitChar && d2.all isDigitChar
       | _ => false)
  | _ => false

/-- `^[a-z0-9_-]+$`. -/
def rePatternPath (s : String) : Bool :=
  !s.data.isEmpty && s.data.all isSlugChar

/-- `^sha256:[a-f0-9]{64}$`. -/
def rePatternSha256 (s : String) : Bool :=
  headMatches "sha256:".data s.data
    && ((s.data.drop 7).length == 64) && (s.data.drop 7).all isHexChar

/-- `DEPLOY_GATE_PROFILE_V02` (`deploy-gate@0.2`). -/
def DEPLOY_GATE_PROFILE_V02 : Profile where
  id := "deploy-gate@0.2"
  version := "0.2"
  requiredGates := ["frame", "problem", "objective", "tradeoff", "commitment", "decision_owner"]
  frameSchema :=
    { keyOrder := ["repo", "sha", "env", "profile", "path", "disclosure_hash"]
      fields :=
        [("repo", ⟨rePatternRepo, true, none⟩),
         ("sha", ⟨rePatternSha, true, none⟩),
         ("env", ⟨rePatternEnv, true, some ["prod", "staging"]⟩),
         ("profile", ⟨rePatternProfileId, true, none⟩),
         ("path", ⟨rePatternPath, true, none⟩),
         ("disclosure_hash", ⟨rePatternSha256, true, none⟩)] }
  executionPaths :=
    [("deploy-prod-canary",
      ⟨"Canary deployment to production (limited rollout)", [],
       [⟨"engineering", "prod"⟩]⟩),
     ("deploy-prod-full",
      ⟨"Full deployment to production (immediate rollout)", [],
       [⟨"engineering", "prod"⟩, ⟨"release_management", "prod"⟩]⟩)]
  ttlDefault := 3600
  ttlMax := 86400

/-- `DEPLOY_GATE_PROFILE` (`deploy-gate@0.3`). -/
def DEPLOY_GATE_PROFILE : Profile where
  id := "deploy-gate@0.3"
  version := "0.3"
  requiredGates := ["frame", "decision_owner", "disclosure_review", "commitment"]
  frameSchema :=
    { keyOrder := ["repo", "sha", "env", "profile", "path"]
      fields :=
        [("repo", ⟨rePatternRepo, true, none⟩),
         ("sha", ⟨rePatternSha, true, none⟩),
         ("env", ⟨rePatternEnv, true, some ["prod", "staging"]⟩),
         ("profile", ⟨rePatternProfileId, true, none⟩),
         ("path", ⟨rePatternPath, true, none⟩)] }
  executionPaths :=
    [("deploy-prod-canary",
      ⟨"Canary deployment to production (limited rollout)", ["engineering"],
       [⟨"engineering", "prod"⟩]⟩),
     ("deploy-prod-full",
      ⟨"Full deployment to production (immediate rollout)",
       ["engineering", "release_management"],
       [⟨"engineering", "prod"⟩, ⟨"release_management", "prod"⟩]⟩),
     ("deploy-prod-user-facing",
      ⟨"User-facing feature deployment", ["engineering", "marketing"],
       [⟨"engineering", "prod"⟩, ⟨"marketing", "prod"⟩]⟩),
     ("deploy-prod-security",
      ⟨"Security-sensitive deployment", ["engineering", "security"],
       [⟨"engineering", "prod"⟩, ⟨"security", "prod"⟩]⟩)]
  ttlDefault := 3600
  ttlMax := 86400

/-! ## Frame canonicalization (`packages/hap-core/src/frame.ts`)

`FrameParams` is a JS object of string fields; it is modelled as an
association list so that "the order fields were supplied in" is expressible,
with `alookup` as property access (a JS object never holds a key twice, hence
the `Nodup` hypotheses below). -/

/-- `validateFrameField`: `none` means valid, `some e` carries the error
message (the source's message interpolates the regex source text, which has
no counterpart for a predicate; the message keeps the surrounding text). -/
def validateFrameField (field : String) (value : String) (profile : Profile) : Option String :=
  match alookup field profile.frameSchema.fields with
  | none => some ("Unknown field \"" ++ field ++ "\" not defined in profile " ++ profile.id)
  | some fd =>
    if !(fd.pattern value) then
      some ("Invalid " ++ field ++ ": \"" ++ value ++ "\" does not match pattern")
    else
      match fd.allowedValues with
      | some vs =>
        if !(vs.contains value) then
          some ("Invalid " ++ field ++ ": \"" ++ value ++ "\" not in allowed values")
        else none
      | none => none

/-- `validateFrameParams`: all missing-required errors (in schema order)
followed by all per-entry errors (in supplied order); `[]` means valid. -/
def validateFrameParams (params : List (String × String)) (profile : Profile) : List String :=
  (profile.frameSchema.fields.filterMap (fun fd =>
    if fd.2.required && (alookup fd.1 params).isNone then
      some ("Missing required field: " ++ fd.1)
    else none))
  ++ (params.filterMap (fun kv => validateFrameField kv.1 kv.2 profile))

/-- `canonicalFrame`: validate, then join `key=value` lines in the profile's
`keyOrder` (a missing key would render as the string `"undefined"`, exactly as
JS template interpolation of `undefined` does). -/
def canonicalFrame (params : List (String × String)) (profile : Profile) :
    Except String String :=
  if (validateFrameParams params profile).isEmpty then
    .ok (String.intercalate "\n" (profile.frameSchema.keyOrder.map (fun k =>
      k ++ "=" ++ ((alookup k params).getD "undefined"))))
  else
    .error ("Invalid frame parameters: "
      ++ String.intercalate "; " (validateFrameParams params profile))

/-- `frameHash`: SHA-256 (passed in) of the canonical string. -/
def frameHash (sha256hex : String → String) (canonical : String) : String :=
  "sha256:" ++ sha256hex canonical

end HapCore

namespace HapCore

theorem validateFrameParams_eq_nil_transfer (P : Profile) {p1 p2 : List (String × String)}
    (hnd1 : (p1.map Prod.fst).Nodup) (hnd2 : (p2.map Prod.fst).Nodup)
    (hlk : ∀ k, alookup k p1 = alookup k p2)
    (hv : validateFrameParams p1 P = []) : validateFrameParams p2 P = [] := by
  unfold validateFrameParams at hv ⊢
  rw [List.append_eq_nil] at hv ⊢
  obtain ⟨hmiss, hent⟩ := hv
  rw [List.filterMap_eq_nil_iff] at hmiss ⊢
  refine ⟨?_, ?_⟩
  · intro fd hfd
    have := hmiss fd hfd
    rwa [hlk fd.1] at this
  · rw [List.filterMap_eq_nil_iff] at hent ⊢
    rintro ⟨k, v⟩ hkv
    have hv2 : alookup k p2 = some v := (mem_iff_alookup hnd2 k v).mp hkv
    have hv1 : alookup k p1 = some v := by rw [hlk k]; exact hv2
    exact hent (k, v) ((mem_iff_alookup hnd1 k v).mpr hv1)

/-- **C2.** Frame parameters that validate against `deploy-gate@0.2`
canonicalize to the newline-joined `key=value` string in the profile's fixed
key order `repo,sha,env,profile,path,disclosure_hash`; the result depends only
on the key-to-value mapping, so two parameter lists with the same lookup
function (any supply order) canonicalize identically. -/
theorem canonicalFrame_deploy_gate_v02 (p1 p2 : List (String × String))
    (hnd1 : (p1.map Prod.fst).Nodup) (hnd2 : (p2.map Prod.fst).Nodup)
    (hlk : ∀ k, alookup k p1 = alookup k p2)
    (hv : validateFrameParams p1 DEPLOY_GATE_PROFILE_V02 = []) :
    canonicalFrame p1 DEPLOY_GATE_PROFILE_V02 =
      .ok (String.intercalate "\n"
        (["repo", "sha", "env", "profile", "path", "disclosure_hash"].map (fun k =>
          k ++ "=" ++ ((alookup k p1).getD "undefined"))))
    ∧ canonicalFrame p2 DEPLOY_GATE_PROFILE_V02 = canonicalFrame p1 DEPLOY_GATE_PROFILE_V02 := by
  have hv2 := validateFrameParams_eq_nil_transfer DEPLOY_GATE_PROFILE_V02 hnd1 hnd2 hlk hv
  have h1 : canonicalFrame p1 DEPLOY_GATE_PROFILE_V02 =
      .ok (String.intercalate "\n"
        (["repo", "sha", "env", "profile", "path", "disclosure_hash"].map (fun k =>
          k ++ "=" ++ ((alookup k p1).getD "undefined")))) := by
    unfold canonicalFrame
    rw [hv]
    rfl
  refine ⟨h1, ?_⟩
  unfold canonicalFrame
  rw [hv, hv2]
  have hfun : (fun k => k ++ "=" ++ ((alookup k p2).getD "undefined"))
      = (fun k => k ++ "=" ++ ((alookup k p1).getD "undefined")) :=
    funext (fun k => by rw [hlk k])
  rw [hfun]

def frameParamsEx : List (String × String) :=
  [("repo", "acme/app"),
   ("sha", "aaaaaaaaaaaaaaaaaaaaaaaaaaaaaaaaaaaaaaaa"),
   ("env", "prod"),
   ("profile", "deploy-gate@0.2"),
   ("path", "deploy-prod-canary"),
   ("disclosure_hash",
    "sha256:bbbbbbbbbbbbbbbbbbbbbbbbbbbbbbbbbbbbbbbbbbbbbbbbbbbbbbbbbbbbbbbb")]

def frameParamsExShuffled : List (String × String) := frameParamsEx.reverse

/-- **C2, witness.** The spec's end-to-end example frame, supplied in two
different field orders, canonicalizes to the same fixed six-line string. -/
theorem canonicalFrame_deploy_gate_v02_witness :
    canonicalFrame frameParamsEx DEPLOY_GATE_PROFILE_V02 =
      .ok ("repo=acme/app\nsha=aaaaaaaaaaaaaaaaaaaaaaaaaaaaaaaaaaaaaaaa\nenv=prod\nprofile=deploy-gate@0.2\npath=deploy-prod-canary\ndisclosure_hash=sha256:bbbbbbbbbbbbbbbbbbbbbbbbbbbbbbbbbbbbbbbbbbbbbbbbbbbbbbbbbbbbbbbb")
    ∧ canonicalFrame frameParamsExShuffled DEPLOY_GATE_PROFILE_V02 =
        canonicalFrame frameParamsEx DEPLOY_GATE_PROFILE_V02 := by
  have h := canonicalFrame_deploy_gate_v02 frameParamsEx frameParamsExShuffled
    (by decide) (by decide)
    (alookup_eq_of_perm (by decide) (by decide))
    (by decide)
  exact ⟨h.1.trans (by decide), h.2⟩

end HapCore

namespace HapCore

/-! ## Decision-owner scope coverage (v0.2 attest route, `validateScopes`)

The coverage variant of `validateScopes`: every required `{domain, env}` pair
must be matched by a collected scope, with the single hardcoded substitution
that a `security` scope may satisfy a `release_management` requirement.  On
the first uncovered requirement it returns `{valid: false, missing}`. -/

structure DecisionOwnerScope where
  did : String
  domain : String
  env : String
deriving DecidableEq

inductive ScopeCheckResult where
  | valid : ScopeCheckResult
  | invalid (missing : ScopeReq) : ScopeCheckResult
deriving DecidableEq

namespace ScopeCoverage

def validateScopes (scopes : List DecisionOwnerScope) : List ScopeReq → ScopeCheckResult
  | [] => .valid
  | r :: rest =>
    if scopes.any (fun s => s.domain == r.domain && s.env == r.env) then
      validateScopes scopes rest
    else if r.domain == "release_management"
        && scopes.any (fun s => s.domain == "security" && s.env == r.env) then
      validateScopes scopes rest
    else .invalid r

/-- A requirement is covered by an identical collected scope, or — only for
`release_management` — by a collected `security` scope with the same env. -/
def covers (scopes : List DecisionOwnerScope) (r : ScopeReq) : Prop :=
  (∃ s ∈ scopes, s.domain = r.domain ∧ s.env = r.env)
  ∨ (r.domain = "release_management" ∧ ∃ s ∈ scopes, s.domain = "security" ∧ s.env = r.env)

theorem validateScopes_characterization (scopes : List DecisionOwnerScope) :
    ∀ required : List ScopeReq,
      (validateScopes scopes required = .valid ↔ ∀ r ∈ required, covers scopes r)
      ∧ (∀ m, validateScopes scopes required = .invalid m →
          m ∈ required ∧ ¬covers scopes m) := by
  intro required
  induction required with
  | nil =>
    refine ⟨by simp [validateScopes], ?_⟩
    intro m h
    simp [validateScopes] at h
  | cons r rest ih =>
    by_cases h1 : scopes.any (fun s => s.domain == r.domain && s.env == r.env) = true
    · have heq : validateScopes scopes (r :: rest) = validateScopes scopes rest := by
        unfold validateScopes
        rw [if_pos h1]
        cases rest <;> rfl
      have hcov : covers scopes r := by
        left
        obtain ⟨s, hs, hp⟩ := List.any_eq_true.mp h1
        exact ⟨s, hs, by simpa [Bool.and_eq_true, beq_iff_eq] using hp⟩
      constructor
      · rw [heq, ih.1]
        constructor
        · intro h r' hr'
          rcases List.mem_cons.mp hr' with he | hm
          · rw [he]; exact hcov
          · exact h r' hm
        · intro h r' hm
          exact h r' (List.mem_cons_of_mem r hm)
      · intro m hm
        rw [heq] at hm
        obtain ⟨h1m, h2m⟩ := ih.2 m hm
        exact ⟨List.mem_cons_of_mem r h1m, h2m⟩
    · by_cases h2 : (r.domain == "release_management"
          && scopes.any (fun s => s.domain == "security" && s.env == r.env)) = true
      · have heq : validateScopes scopes (r :: rest) = validateScopes scopes rest := by
          unfold validateScopes
          rw [if_neg h1, if_pos h2]
          cases rest <;> rfl
        rw [Bool.and_eq_true] at h2
        have hcov : covers scopes r := by
          right
          refine ⟨by simpa [beq_iff_eq] using h2.1, ?_⟩
          obtain ⟨s, hs, hp⟩ := List.any_eq_true.mp h2.2
          exact ⟨s, hs, by simpa [Bool.and_eq_true, beq_iff_eq] using hp⟩
        constructor
        · rw [heq, ih.1]
          constructor
          · intro h r' hr'
            rcases List.mem_cons.mp hr' with he | hm
            · rw [he]; exact hcov
            · exact h r' hm
          · intro h r' hm
            exact h r' (List.mem_cons_of_mem r hm)
        · intro m hm
          rw [heq] at hm
          obtain ⟨h1m, h2m⟩ := ih.2 m hm
          exact ⟨List.mem_cons_of_mem r h1m, h2m⟩
      · have heq : validateScopes scopes (r :: rest) = .invalid r := by
          unfold validateScopes
          rw [if_neg h1, if_neg h2]
        have hncov : ¬covers scopes r := by
          rintro (⟨s, hs, hd, he⟩ | ⟨hrm, s, hs, hd, he⟩)
          · exact h1 (List.any_eq_true.mpr ⟨s, hs, by simp [hd, he]⟩)
          · exact h2 (by
              rw [Bool.and_eq_true]
              exact ⟨by simp [hrm], List.any_eq_true.mpr ⟨s, hs, by simp [hd, he]⟩⟩)
        constructor
        · rw [heq]
          constructor
          · intro h
            exact absurd h (by simp)
          · intro h
            exact absurd (h r (List.mem_cons_self r rest)) hncov
        · intro m hm
          rw [heq] at hm
          obtain rfl : r = m := ScopeCheckResult.invalid.inj hm
          exact ⟨List.mem_cons_self r rest, hncov⟩

end ScopeCoverage

/-- **C3.** `validateScopes` succeeds exactly when every required
`{domain, env}` pair is covered (identical scope, or — for
`release_management` only — a `security` scope with the same env); on failure
it reports an uncovered requirement.  Concretely: `{engineering, security}`
(prod) covers `{engineering, release_management}` (prod); `{engineering}`
alone fails with missing `{release_management, prod}`. -/
theorem validateScopes_coverage_spec :
    (∀ (scopes : List DecisionOwnerScope) (required : List ScopeReq),
      ScopeCoverage.validateScopes scopes required = .valid
        ↔ ∀ r ∈ required, ScopeCoverage.covers scopes r)
    ∧ (∀ (scopes : List DecisionOwnerScope) (required : List ScopeReq) (m : ScopeReq),
      ScopeCoverage.validateScopes scopes required = .invalid m →
        m ∈ required ∧ ¬ScopeCoverage.covers scopes m)
    ∧ ScopeCoverage.validateScopes
        [⟨"did:demo:1", "engineering", "prod"⟩, ⟨"did:demo:2", "security", "prod"⟩]
        [⟨"engineering", "prod"⟩, ⟨"release_management", "prod"⟩] = .valid
    ∧ ScopeCoverage.validateScopes
        [⟨"did:demo:1", "engineering", "prod"⟩]
        [⟨"engineering", "prod"⟩, ⟨"release_management", "prod"⟩]
        = .invalid ⟨"release_management", "prod"⟩ :=
  ⟨fun scopes required => (ScopeCoverage.validateScopes_characterization scopes required).1,
   fun scopes required => (ScopeCoverage.validateScopes_characterization scopes required).2,
   by decide, by decide⟩

/-- **C3, witness.** The reported missing requirement for `{engineering}`
alone really is an uncovered element of the requirement list. -/
theorem validateScopes_coverage_spec_witness :
    (⟨"release_management", "prod"⟩ : ScopeReq)
        ∈ [(⟨"engineering", "prod"⟩ : ScopeReq), ⟨"release_management", "prod"⟩]
    ∧ ¬ScopeCoverage.covers [⟨"did:demo:1", "engineering", "prod"⟩]
        ⟨"release_management", "prod"⟩ :=
  validateScopes_coverage_spec.2.1
    [⟨"did:demo:1", "engineering", "prod"⟩]
    [⟨"engineering", "prod"⟩, ⟨"release_management", "prod"⟩]
    ⟨"release_management", "prod"⟩ (by decide)

end HapCore

namespace HapCore

/-! ## SDG rule engine (`apps/ui/src/sdg/runner.ts`)

SDG definitions are fetched from the server by id; the fetch is network I/O
outside the core, so `runSDG` here takes the already-resolved definition.
`evaluateRule` recognizes the five rule strings of the catalogue; an unknown
rule never triggers.  The semantic-distance heuristic's float comparison
`matching/total < 0.2` is modelled by the exact rational equivalent
`5*matching < total` (the two agree for every realistic term count). -/

structure SDGDefinition where
  id : String
  signal_intent : String
  description : String
  observable_structures : List String
  detection_rules : List String
  stop_trigger : Bool
  user_prompt : String
deriving DecidableEq

structure SDGContext where
  affected_domains : List String
  declared_decision_owner_scopes : List String
  frame_hashes : List String
  tradeoff_mode : String
  execution_path : String
  objective_text : String
  diff_summary : String
deriving DecidableEq

structure SDGResult where
  id : String
  signal_intent : String
  triggered : Bool
  stop_trigger : Bool
  user_prompt : Option String
deriving DecidableEq

/-- `String.prototype.toLowerCase` (ASCII range). -/
def jsToLower (s : String) : String := String.mk (s.data.map Char.toLower)

def isWordChar (c : Char) : Bool :=
  ('a' ≤ c && c ≤ 'z') || ('A' ≤ c && c ≤ 'Z') || isDigitChar c || c = '_'

/-- `split(/\W+/)`: tokens between non-word characters.  Splitting on every
single non-word character also produces empty tokens, which the following
`length > 3` filter discards, so the end result is the same. -/
def splitNonWord : List Char → List (List Char)
  | [] => [[]]
  | c :: rest =>
    match splitNonWord rest with
    | [] => [[]]
    | g :: gs => if isWordChar c then (c :: g) :: gs else [] :: g :: gs

/-- `evaluateSemanticDistance`: term-overlap heuristic between objective and
diff summary; flags when under 20 % of the objective's long terms occur in the
diff text. -/
def evaluateSemanticDistance (objective diff : String) : Bool :=
  if objective == "" || diff == "" then false
  else
    let objTerms := (splitNonWord (jsToLower objective).data).filter (fun w => w.length > 3)
    let matching := objTerms.filter (fun t => (subIndexOf t (jsToLower diff).data).isSome)
    if objTerms.length = 0 then false
    else decide (5 * matching.length < objTerms.length)

/-- `evaluateRule`: the five recognized detection-rule strings; anything else
logs a warning and does not trigger. -/
def evaluateRule (rule : String) (ctx : SDGContext) : Bool :=
  if rule == "affected_domains ⊄ declared_decision_owner_scopes" then
    ctx.affected_domains.any (fun d => !(ctx.declared_decision_owner_scopes.contains d))
  else if rule == "count(unique(frame_hashes)) > 1" then
    decide (ctx.frame_hashes.dedup.length > 1)
  else if rule == "tradeoff_mode=canary AND execution_path!=deploy-prod-canary" then
    ctx.tradeoff_mode == "canary" && ctx.execution_path != "deploy-prod-canary"
  else if rule == "tradeoff_mode=full AND execution_path!=deploy-prod-full" then
    ctx.tradeoff_mode == "full" && ctx.execution_path != "deploy-prod-full"
  else if rule == "semantic_distance(objective_text, diff_summary) > threshold" then
    evaluateSemanticDistance ctx.objective_text ctx.diff_summary
  else
    false

/-- `runSDG` (with the fetched definition supplied): a rule fires when *any*
of its detection rules evaluates true. -/
def runSDG (sdg : SDGDefinition) (ctx : SDGContext) : SDGResult :=
  { id := sdg.id
    signal_intent := sdg.signal_intent
    triggered := sdg.detection_rules.any (fun rule => evaluateRule rule ctx)
    stop_trigger := sdg.stop_trigger
    user_prompt :=
      if sdg.detection_rules.any (fun rule => evaluateRule rule ctx) then some sdg.user_prompt
      else none }

def hasHardStop (results : List SDGResult) : Bool :=
  results.any (fun r => r.triggered && r.stop_trigger)

def getWarnings (results : List SDGResult) : List SDGResult :=
  results.filter (fun r => r.triggered && !r.stop_trigger)

def getHardStops (results : List SDGResult) : List SDGResult :=
  results.filter (fun r => r.triggered && r.stop_trigger)

/-- A structural hard-stop rule and a semantic warning rule, both firing. -/
def sdgHardEx : SDGDefinition :=
  { id := "deploy/commitment_mismatch@1.0"
    signal_intent := "Detect frame divergence between collected attestations"
    description := ""
    observable_structures := ["frame_hashes"]
    detection_rules := ["count(unique(frame_hashes)) > 1"]
    stop_trigger := true
    user_prompt := "Frame hashes diverge." }

def sdgWarnEx : SDGDefinition :=
  { id := "deploy/objective_diff_mismatch@1.0"
    signal_intent := "Flag objective text unrelated to the diff"
    description := ""
    observable_structures := ["objective_text", "diff_summary"]
    detection_rules := ["semantic_distance(objective_text, diff_summary) > threshold"]
    stop_trigger := false
    user_prompt := "Objective seems unrelated to the change." }

def sdgCtxEx : SDGContext :=
  { affected_domains := ["engineering"]
    declared_decision_owner_scopes := ["engineering"]
    frame_hashes := ["sha256:aa", "sha256:bb"]
    tradeoff_mode := "canary"
    execution_path := "deploy-prod-canary"
    objective_text := "improve cache latency"
    diff_summary := "update styles"
    }

/-- **C9.** `getHardStops`/`getWarnings` partition the triggered results
(`triggered ∧ stop_trigger` vs `triggered ∧ ¬stop_trigger`, disjoint,
untriggered in neither); a rule triggers exactly when at least one of its
detection predicates is true; one firing hard-stop rule plus one firing
warning rule yield exactly one hard-stop and one warning. -/
theorem sdg_partition_spec :
    (∀ (results : List SDGResult) (r : SDGResult),
      (r ∈ getHardStops results ↔ r ∈ results ∧ r.triggered = true ∧ r.stop_trigger = true)
      ∧ (r ∈ getWarnings results ↔ r ∈ results ∧ r.triggered = true ∧ r.stop_trigger = false)
      ∧ ¬(r ∈ getHardStops results ∧ r ∈ getWarnings results)
      ∧ (r.triggered = false → r ∉ getHardStops results ∧ r ∉ getWarnings results))
    ∧ (∀ (sdg : SDGDefinition) (ctx : SDGContext),
      (runSDG sdg ctx).triggered = true
        ↔ ∃ rule ∈ sdg.detection_rules, evaluateRule rule ctx = true)
    ∧ getHardStops [runSDG sdgHardEx sdgCtxEx, runSDG sdgWarnEx sdgCtxEx]
        = [runSDG sdgHardEx sdgCtxEx]
    ∧ getWarnings [runSDG sdgHardEx sdgCtxEx, runSDG sdgWarnEx sdgCtxEx]
        = [runSDG sdgWarnEx sdgCtxEx] := by
  refine ⟨?_, ?_, by decide, by decide⟩
  · intro results r
    have hhs : r ∈ getHardStops results ↔ r ∈ results ∧ r.triggered = true ∧ r.stop_trigger = true := by
      unfold getHardStops
      rw [List.mem_filter]
      simp [Bool.and_eq_true]
    have hw : r ∈ getWarnings results ↔ r ∈ results ∧ r.triggered = true ∧ r.stop_trigger = false := by
      unfold getWarnings
      rw [List.mem_filter]
      simp [Bool.and_eq_true]
    refine ⟨hhs, hw, ?_, ?_⟩
    · rintro ⟨h1, h2⟩
      have := (hhs.mp h1).2.2
      have := (hw.mp h2).2.2
      simp_all
    · intro ht
      constructor
      · intro h
        have := (hhs.mp h).2.1
        simp_all
      · intro h
        have := (hw.mp h).2.1
        simp_all
  · intro sdg ctx
    unfold runSDG
    simp [List.any_eq_true]

end HapCore

namespace HapCore

/-- **C9, witness.** An untriggered result lands in neither partition. -/
theorem sdg_partition_spec_witness :
    (⟨"x", "i", false, true, none⟩ : SDGResult)
        ∉ getHardStops [⟨"x", "i", false, true, none⟩]
    ∧ (⟨"x", "i", false, true, none⟩ : SDGResult)
        ∉ getWarnings [⟨"x", "i", false, true, none⟩] :=
  (sdg_partition_spec.1 [⟨"x", "i", false, true, none⟩] ⟨"x", "i", false, true, none⟩).2.2.2 rfl

/-! ## Attestations (`packages/hap-core/src/types.ts`, `attestation.ts`)

The payload union is the tagged variant of v0.2 and v0.3 payloads.  Ed25519
and JSON are platform primitives: signature checking enters as a `sigOk`
predicate and JSON (de)serialization as `jsonOf`/`parseJson` functions; the
base64url transport coding — the part `attestation.ts` implements itself — is
defined concretely below. -/

structure AttestationHeader where
  typ : String
  alg : String
  kid : String
deriving DecidableEq

structure ResolvedDomain where
  domain : String
  did : String
  env : String
  disclosure_hash : String
deriving DecidableEq

inductive AttestationPayload where
  | v02 (attestation_id profile_id frame_hash : String)
        (resolved_gates decision_owners : List String)
        (decision_owner_scopes : List DecisionOwnerScope)
        (issued_at expires_at : Nat)
  | v03 (attestation_id profile_id frame_hash : String)
        (resolved_domains : List ResolvedDomain)
        (issued_at expires_at : Nat)
deriving DecidableEq

def AttestationPayload.frame_hash : AttestationPayload → String
  | .v02 _ _ fh _ _ _ _ _ => fh
  | .v03 _ _ fh _ _ _ => fh

def AttestationPayload.issued_at : AttestationPayload → Nat
  | .v02 _ _ _ _ _ _ i _ => i
  | .v03 _ _ _ _ i _ => i

def AttestationPayload.expires_at : AttestationPayload → Nat
  | .v02 _ _ _ _ _ _ _ e => e
  | .v03 _ _ _ _ _ e => e

structure Attestation where
  header : AttestationHeader
  payload : AttestationPayload
  signature : String
deriving DecidableEq

inductive AttestationErrorCode where
  | INVALID_SIGNATURE
  | EXPIRED
  | FRAME_MISMATCH
  | PATH_MISMATCH
  | SCOPE_INSUFFICIENT
  | MALFORMED_ATTESTATION
  | ALREADY_USED
deriving DecidableEq

/-! ### Base64 / base64url transport coding

`Buffer.from/toString('base64')` is standard RFC 4648 base64 with padding;
`attestation.ts` converts to and from the URL-safe alphabet and strips or
restores the padding itself. -/

def b64Alpha : List Char :=
  "ABCDEFGHIJKLMNOPQRSTUVWXYZabcdefghijklmnopqrstuvwxyz0123456789+/".data

def b64Char (n : Nat) : Char := b64Alpha.getD n 'A'

def b64Index (c : Char) : Option Nat := b64Alpha.indexOf? c

/-- Standard base64 of a byte list (3 bytes → 4 chars, `=`-padded tail). -/
def b64EncodeBytes : List Nat → List Char
  | b1 :: b2 :: b3 :: rest =>
    b64Char (b1 / 4) :: b64Char (b1 % 4 * 16 + b2 / 16)
      :: b64Char (b2 % 16 * 4 + b3 / 64) :: b64Char (b3 % 64) :: b64EncodeBytes rest
  | [b1, b2] => [b64Char (b1 / 4), b64Char (b1 % 4 * 16 + b2 / 16), b64Char (b2 % 16 * 4), '=']
  | [b1] => [b64Char (b1 / 4), b64Char (b1 % 4 * 16), '=', '=']
  | [] => []

/-- Standard base64 decoding (4 chars → up to 3 bytes, `=` only in the final
group). -/
def b64DecodeChars : List Char → Option (List Nat)
  | [] => some []
  | c1 :: c2 :: c3 :: c4 :: rest =>
    match b64Index c1, b64Index c2 with
    | some n1, some n2 =>
      if c3 = '=' then
        if c4 = '=' && rest.isEmpty then some [n1 * 4 + n2 / 16] else none
      else
        match b64Index c3 with
        | some n3 =>
          if c4 = '=' then
            if rest.isEmpty then some [n1 * 4 + n2 / 16, n2 % 16 * 16 + n3 / 4] else none
          else
            match b64Index c4, b64DecodeChars rest with
            | some n4, some bs =>
              some ((n1 * 4 + n2 / 16) :: (n2 % 16 * 16 + n3 / 4) :: (n3 % 4 * 64 + n4) :: bs)
            | _, _ => none
        | none => none
    | _, _ => none
  | _ => none

/-- `.replace(/\+/g, '-').replace(/\//g, '_')`. -/
def toUrlChar (c : Char) : Char := if c = '+' then '-' else if c = '/' then '_' else c

/-- Inverse alphabet mapping: `-` back to `+` and `_` back to `/`. -/
def fromUrlChar (c : Char) : Char := if c = '-' then '+' else if c = '_' then '/' else c

/-- `.replace(/=+$/, '')`. -/
def stripTrailingEq (l : List Char) : List Char := (l.reverse.dropWhile (· = '=')).reverse

/-- `base64.length % 4 === 0 ? '' : '='.repeat(4 - (base64.length % 4))`. -/
def padEq (l : List Char) : List Char :=
  if l.length % 4 = 0 then l else l ++ List.replicate (4 - l.length % 4) '='

/-- The blob body of `encodeAttestationBlob`: base64, URL-safe alphabet,
padding stripped. -/
def encodeBlobBytes (bytes : List Nat) : List Char :=
  stripTrailingEq ((b64EncodeBytes bytes).map toUrlChar)

/-- The byte recovery of `decodeAttestationBlob`: restore alphabet, restore
padding, decode. -/
def decodeBlobBytes (blob : List Char) : Option (List Nat) :=
  b64DecodeChars (padEq (blob.map fromUrlChar))

/-- `encodeAttestationBlob`: `JSON.stringify` (passed in as `jsonOf`) then the
URL-safe unpadded base64 of the bytes. -/
def encodeAttestationBlob (jsonOf : Attestation → List Nat) (a : Attestation) : List Char :=
  encodeBlobBytes (jsonOf a)

/-- `decodeAttestationBlob`: any failure while decoding (bad base64 contents
or unparsable JSON) is `MALFORMED_ATTESTATION`. -/
def decodeAttestationBlob (parseJson : List Nat → Option Attestation) (blob : List Char) :
    Except AttestationErrorCode Attestation :=
  match decodeBlobBytes blob with
  | none => .error .MALFORMED_ATTESTATION
  | some bytes =>
    match parseJson bytes with
    | none => .error .MALFORMED_ATTESTATION
    | some a => .ok a

/-- `verifyAttestationSignature`: Ed25519 verification over the serialized
payload enters as the `sigOk` predicate (any internal error also surfaces as
`INVALID_SIGNATURE` in the source). -/
def verifyAttestationSignature (sigOk : AttestationPayload → String → String → Bool)
    (a : Attestation) (publicKeyHex : String) : Except AttestationErrorCode Unit :=
  if sigOk a.payload a.signature publicKeyHex then .ok () else .error .INVALID_SIGNATURE

/-- `checkAttestationExpiry`: expired iff `expires_at <= now`. -/
def checkAttestationExpiry (p : AttestationPayload) (now : Nat) :
    Except AttestationErrorCode Unit :=
  if p.expires_at ≤ now then .error .EXPIRED else .ok ()

/-- `verifyFrameHash`. -/
def verifyFrameHash (a : Attestation) (expectedFrameHash : String) :
    Except AttestationErrorCode Unit :=
  if a.payload.frame_hash ≠ expectedFrameHash then .error .FRAME_MISMATCH else .ok ()

/-- `verifyAttestation`: decode, signature, expiry, frame hash — sequential
and short-circuiting. -/
def verifyAttestation (parseJson : List Nat → Option Attestation)
    (sigOk : AttestationPayload → String → String → Bool)
    (blob : List Char) (publicKeyHex expectedFrameHash : String) (now : Nat) :
    Except AttestationErrorCode AttestationPayload :=
  match decodeAttestationBlob parseJson blob with
  | .error e => .error e
  | .ok a =>
    match verifyAttestationSignature sigOk a publicKeyHex with
    | .error e => .error e
    | .ok _ =>
      match checkAttestationExpiry a.payload now with
      | .error e => .error e
      | .ok _ =>
        match verifyFrameHash a expectedFrameHash with
        | .error e => .error e
        | .ok _ => .ok a.payload

end HapCore

namespace HapCore

/-- **C1.** `verifyAttestation` performs decode, signature, expiry and
frame-hash checks in that order, failing with `MALFORMED_ATTESTATION`,
`INVALID_SIGNATURE`, `EXPIRED` or `FRAME_MISMATCH` at the first failing step,
and returns the decoded payload exactly when all four pass.  The expiry check
fails exactly when `expires_at ≤ now`, so `expires_at = now` is expired and
`expires_at = now + 1` is not. -/
theorem verifyAttestation_spec (parseJson : List Nat → Option Attestation)
    (sigOk : AttestationPayload → String → String → Bool)
    (blob : List Char) (pk efh : String) (now : Nat) :
    (decodeBlobBytes blob = none →
      verifyAttestation parseJson sigOk blob pk efh now = .error .MALFORMED_ATTESTATION)
    ∧ (∀ bytes, decodeBlobBytes blob = some bytes → parseJson bytes = none →
      verifyAttestation parseJson sigOk blob pk efh now = .error .MALFORMED_ATTESTATION)
    ∧ (∀ a, decodeAttestationBlob parseJson blob = .ok a →
        (sigOk a.payload a.signature pk = false →
          verifyAttestation parseJson sigOk blob pk efh now = .error .INVALID_SIGNATURE)
        ∧ (sigOk a.payload a.signature pk = true → a.payload.expires_at ≤ now →
          verifyAttestation parseJson sigOk blob pk efh now = .error .EXPIRED)
        ∧ (sigOk a.payload a.signature pk = true → now < a.payload.expires_at →
            a.payload.frame_hash ≠ efh →
          verifyAttestation parseJson sigOk blob pk efh now = .error .FRAME_MISMATCH)
        ∧ (sigOk a.payload a.signature pk = true → now < a.payload.expires_at →
            a.payload.frame_hash = efh →
          verifyAttestation parseJson sigOk blob pk efh now = .ok a.payload))
    ∧ (∀ (p : AttestationPayload) (t : Nat),
        (checkAttestationExpiry p t = .error .EXPIRED ↔ p.expires_at ≤ t)
        ∧ (checkAttestationExpiry p t = .ok () ↔ t < p.expires_at)) := by
  refine ⟨?_, ?_, ?_, ?_⟩
  · intro hdec
    unfold verifyAttestation decodeAttestationBlob
    rw [hdec]
  · intro bytes hdec hjson
    unfold verifyAttestation decodeAttestationBlob
    rw [hdec]
    simp [hjson]
  · intro a hdec
    refine ⟨?_, ?_, ?_, ?_⟩
    · intro hsig
      unfold verifyAttestation
      rw [hdec]
      simp [verifyAttestationSignature, hsig]
    · intro hsig hexp
      unfold verifyAttestation
      rw [hdec]
      simp [verifyAttestationSignature, hsig, checkAttestationExpiry, hexp]
    · intro hsig hexp hfh
      have hnl : ¬(a.payload.expires_at ≤ now) := by omega
      unfold verifyAttestation
      rw [hdec]
      simp [verifyAttestationSignature, hsig, checkAttestationExpiry, hnl,
        verifyFrameHash, hfh]
    · intro hsig hexp hfh
      have hnl : ¬(a.payload.expires_at ≤ now) := by omega
      unfold verifyAttestation
      rw [hdec]
      simp [verifyAttestationSignature, hsig, checkAttestationExpiry, hnl,
        verifyFrameHash, hfh]
  · intro p t
    unfold checkAttestationExpiry
    by_cases h : p.expires_at ≤ t
    · rw [if_pos h]
      exact ⟨⟨fun _ => h, fun _ => rfl⟩, ⟨fun hc => Except.noConfusion hc, fun hlt => absurd h (by omega)⟩⟩
    · rw [if_neg h]
      refine ⟨⟨fun hc => Except.noConfusion hc, fun hle => absurd hle h⟩, ⟨fun _ => by omega, fun _ => rfl⟩⟩

def attEx : Attestation :=
  { header := ⟨"HAP-attestation", "EdDSA", "sp-demo-v1"⟩
    payload := .v02 "att-1" "deploy-gate@0.2" "sha256:ff" ["frame"] ["owner-1"]
      [⟨"did:demo:1", "engineering", "prod"⟩] 100 3700
    signature := "c2ln" }

def parseJsonEx : List Nat → Option Attestation := fun _ => some attEx

def sigOkEx : AttestationPayload → String → String → Bool := fun _ _ _ => true

/-- **C1, witness.** A decodable blob with valid signature, unexpired at
`now = 3699` (one second before `expires_at`), matching frame hash: full
verification returns the payload. -/
theorem verifyAttestation_spec_witness :
    verifyAttestation parseJsonEx sigOkEx [] "pk" "sha256:ff" 3699 = .ok attEx.payload :=
  (((verifyAttestation_spec parseJsonEx sigOkEx [] "pk" "sha256:ff" 3699).2.2.1 attEx
    (by decide)).2.2.2) rfl (by decide) rfl

end HapCore

namespace HapCore

/-! ### Round trip of the blob codec (claim C4) -/

theorem b64_index_char : ∀ n : Fin 64, b64Index (b64Char n.val) = some n.val := by decide

theorem b64_index_char_lt {n : Nat} (h : n < 64) : b64Index (b64Char n) = some n :=
  b64_index_char ⟨n, h⟩

theorem b64Alpha_ne_pad : ∀ c ∈ b64Alpha, c ≠ '=' := by decide

theorem b64Char_ne_pad (n : Nat) : b64Char n ≠ '=' := by
  unfold b64Char
  cases h : b64Alpha[n]? with
  | none => simp [List.getD, h]
  | some c =>
    have hc : c ∈ b64Alpha := List.getElem?_mem h
    simp [List.getD, h]
    exact b64Alpha_ne_pad c hc

theorem b64_decode_encode : ∀ bytes : List Nat, (∀ b ∈ bytes, b < 256) →
    b64DecodeChars (b64EncodeBytes bytes) = some bytes := by
  intro bytes h
  induction bytes using b64EncodeBytes.induct with
  | case1 b1 b2 b3 rest ih =>
    have hb1 : b1 < 256 := h b1 (by simp)
    have hb2 : b2 < 256 := h b2 (by simp)
    have hb3 : b3 < 256 := h b3 (by simp)
    have ihr := ih (fun b hb => h b (by simp [hb]))
    simp only [b64EncodeBytes, b64DecodeChars,
      b64_index_char_lt (show b1 / 4 < 64 by omega),
      b64_index_char_lt (show b1 % 4 * 16 + b2 / 16 < 64 by omega),
      b64_index_char_lt (show b2 % 16 * 4 + b3 / 64 < 64 by omega),
      b64_index_char_lt (show b3 % 64 < 64 by omega),
      b64Char_ne_pad, if_false, ihr]
    simp only [Option.some.injEq, List.cons.injEq, eq_self_iff_true, and_true]
    omega
  | case2 b1 b2 =>
    have hb1 : b1 < 256 := h b1 (by simp)
    have hb2 : b2 < 256 := h b2 (by simp)
    simp only [b64EncodeBytes, b64DecodeChars,
      b64_index_char_lt (show b1 / 4 < 64 by omega),
      b64_index_char_lt (show b1 % 4 * 16 + b2 / 16 < 64 by omega),
      b64_index_char_lt (show b2 % 16 * 4 < 64 by omega),
      b64Char_ne_pad, if_false]
    simp only [List.isEmpty_nil, Bool.and_true, if_pos, Option.some.injEq, List.cons.injEq,
      eq_self_iff_true, and_true]
    omega
  | case3 b1 =>
    have hb1 : b1 < 256 := h b1 (by simp)
    simp only [b64EncodeBytes, b64DecodeChars,
      b64_index_char_lt (show b1 / 4 < 64 by omega),
      b64_index_char_lt (show b1 % 4 * 16 < 64 by omega)]
    simp
    omega
  | case4 => rfl

theorem dropWhileEq_eq_self {m : List Char} (h : ∀ c ∈ m, c ≠ '=') :
    m.dropWhile (· = '=') = m := by
  cases m with
  | nil => rfl
  | cons c rest =>
    rw [List.dropWhile_cons, if_neg (by simpa using h c (List.mem_cons_self c rest))]

theorem dropWhileEq_map {f : Char → Char} (hf : ∀ c, f c = '=' ↔ c = '=') :
    ∀ l : List Char, (l.map f).dropWhile (· = '=') = (l.dropWhile (· = '=')).map f := by
  intro l
  induction l with
  | nil => rfl
  | cons c rest ih =>
    rw [List.map_cons, List.dropWhile_cons, List.dropWhile_cons]
    by_cases h : c = '='
    · rw [if_pos (by simpa using (hf c).mpr h), if_pos (by simpa using h), ih]
    · rw [if_neg (by simpa using fun hc => h ((hf c).mp hc)), if_neg (by simpa using h),
        List.map_cons]

theorem map_stripTrailingEq {f : Char → Char} (hf : ∀ c, f c = '=' ↔ c = '=')
    (l : List Char) : (stripTrailingEq l).map f = stripTrailingEq (l.map f) := by
  unfold stripTrailingEq
  rw [← List.map_reverse, dropWhileEq_map hf, List.map_reverse]

theorem fromUrlChar_eq_pad_iff (c : Char) : fromUrlChar c = '=' ↔ c = '=' := by
  unfold fromUrlChar
  split_ifs with h1 h2
  · subst h1; constructor <;> (intro h; exact absurd h (by decide))
  · subst h2; constructor <;> (intro h; exact absurd h (by decide))
  · exact Iff.rfl

theorem b64Alpha_url_roundtrip : ∀ c ∈ b64Alpha, fromUrlChar (toUrlChar c) = c := by decide

theorem urlChar_roundtrip_b64Char (n : Nat) :
    fromUrlChar (toUrlChar (b64Char n)) = b64Char n := by
  unfold b64Char
  cases h : b64Alpha[n]? with
  | none => simp [List.getD, h, toUrlChar, fromUrlChar]
  | some c =>
    have hc : c ∈ b64Alpha := List.getElem?_mem h
    simp [List.getD, h]
    exact b64Alpha_url_roundtrip c hc

theorem encode_chars (bytes : List Nat) :
    ∀ c ∈ b64EncodeBytes bytes, c = '=' ∨ ∃ n, c = b64Char n := by
  induction bytes using b64EncodeBytes.induct with
  | case1 b1 b2 b3 rest ih =>
    intro c hc
    simp only [b64EncodeBytes, List.mem_cons] at hc
    rcases hc with rfl | rfl | rfl | rfl | hm
    · exact Or.inr ⟨_, rfl⟩
    · exact Or.inr ⟨_, rfl⟩
    · exact Or.inr ⟨_, rfl⟩
    · exact Or.inr ⟨_, rfl⟩
    · exact ih c hm
  | case2 b1 b2 =>
    intro c hc
    simp only [b64EncodeBytes, List.mem_cons, List.not_mem_nil, or_false] at hc
    rcases hc with rfl | rfl | rfl | rfl
    · exact Or.inr ⟨_, rfl⟩
    · exact Or.inr ⟨_, rfl⟩
    · exact Or.inr ⟨_, rfl⟩
    · exact Or.inl rfl
  | case3 b1 =>
    intro c hc
    simp only [b64EncodeBytes, List.mem_cons, List.not_mem_nil, or_false] at hc
    rcases hc with rfl | rfl | rfl | rfl
    · exact Or.inr ⟨_, rfl⟩
    · exact Or.inr ⟨_, rfl⟩
    · exact Or.inl rfl
    · exact Or.inl rfl
  | case4 =>
    intro c hc
    simp [b64EncodeBytes] at hc

theorem map_url_roundtrip (bytes : List Nat) :
    (b64EncodeBytes bytes).map (fromUrlChar ∘ toUrlChar) = b64EncodeBytes bytes := by
  have hpt : ∀ c ∈ b64EncodeBytes bytes, (fromUrlChar ∘ toUrlChar) c = id c := by
    intro c hc
    rcases encode_chars bytes c hc with rfl | ⟨n, rfl⟩
    · decide
    · exact urlChar_roundtrip_b64Char n
  rw [List.map_congr_left hpt, List.map_id]

theorem dropWhile_replicate_pad (k : Nat) :
    (List.replicate k '=').dropWhile (· = '=') = [] := by
  induction k with
  | zero => rfl
  | succ n ih =>
    rw [List.replicate_succ, List.dropWhile_cons, if_pos (by decide)]
    exact ih

theorem stripTrailingEq_replicate (k : Nat) :
    stripTrailingEq (List.replicate k '=') = [] := by
  unfold stripTrailingEq
  rw [List.reverse_replicate, dropWhile_replicate_pad]
  rfl

theorem stripTrailingEq_append {l1 : List Char} (l2 : List Char)
    (h : ∀ c ∈ l1, c ≠ '=') :
    stripTrailingEq (l1 ++ l2) = l1 ++ stripTrailingEq l2 := by
  unfold stripTrailingEq
  rw [List.reverse_append, List.dropWhile_append]
  by_cases he : (l2.reverse.dropWhile (· = '=')).isEmpty
  · rw [if_pos he]
    rw [List.isEmpty_iff] at he
    rw [he, dropWhileEq_eq_self (fun c hc => h c (List.mem_reverse.mp hc)),
      List.reverse_reverse]
    simp
  · rw [if_neg he, List.reverse_append, List.reverse_reverse]

theorem padEq_append4 {l1 : List Char} (l2 : List Char) (h : l1.length = 4) :
    padEq (l1 ++ l2) = l1 ++ padEq l2 := by
  unfold padEq
  rw [List.length_append, h]
  have hmod : (4 + l2.length) % 4 = l2.length % 4 := by omega
  rw [hmod]
  by_cases hz : l2.length % 4 = 0
  · rw [if_pos hz, if_pos hz]
  · rw [if_neg hz, if_neg hz, List.append_assoc]

theorem padEq_strip_encode : ∀ bytes : List Nat,
    padEq (stripTrailingEq (b64EncodeBytes bytes)) = b64EncodeBytes bytes := by
  intro bytes
  induction bytes using b64EncodeBytes.induct with
  | case1 b1 b2 b3 rest ih =>
    show padEq (stripTrailingEq
      ([b64Char (b1 / 4), b64Char (b1 % 4 * 16 + b2 / 16),
        b64Char (b2 % 16 * 4 + b3 / 64), b64Char (b3 % 64)] ++ b64EncodeBytes rest)) = _
    rw [stripTrailingEq_append _ (by
      intro c hc
      simp only [List.mem_cons, List.not_mem_nil, or_false] at hc
      rcases hc with rfl | rfl | rfl | rfl <;> exact b64Char_ne_pad _)]
    rw [padEq_append4 _ (by simp), ih]
    rfl
  | case2 b1 b2 =>
    show padEq (stripTrailingEq
      ([b64Char (b1 / 4), b64Char (b1 % 4 * 16 + b2 / 16), b64Char (b2 % 16 * 4)]
        ++ List.replicate 1 '=')) = _
    rw [stripTrailingEq_append _ (by
      intro c hc
      simp only [List.mem_cons, List.not_mem_nil, or_false] at hc
      rcases hc with rfl | rfl | rfl <;> exact b64Char_ne_pad _)]
    rw [stripTrailingEq_replicate 1]
    rw [List.append_nil]
    unfold padEq
    rw [if_neg (by simp)]
    rfl
  | case3 b1 =>
    show padEq (stripTrailingEq
      ([b64Char (b1 / 4), b64Char (b1 % 4 * 16)] ++ List.replicate 2 '=')) = _
    rw [stripTrailingEq_append _ (by
      intro c hc
      simp only [List.mem_cons, List.not_mem_nil, or_false] at hc
      rcases hc with rfl | rfl <;> exact b64Char_ne_pad _)]
    rw [stripTrailingEq_replicate 2]
    rw [List.append_nil]
    unfold padEq
    rw [if_neg (by simp)]
    rfl
  | case4 => rfl

theorem decodeBlobBytes_encodeBlobBytes (bytes : List Nat) (h : ∀ b ∈ bytes, b < 256) :
    decodeBlobBytes (encodeBlobBytes bytes) = some bytes := by
  unfold decodeBlobBytes encodeBlobBytes
  rw [map_stripTrailingEq fromUrlChar_eq_pad_iff, List.map_map, map_url_roundtrip,
    padEq_strip_encode]
  exact b64_decode_encode bytes h

/-- **C4.** `decode(encode(attestation))` reproduces the original attestation
exactly, for any JSON serializer/parser pair that round-trips on the
attestation (as `JSON.parse ∘ JSON.stringify` does) and produces bytes. -/
theorem decodeAttestationBlob_encodeAttestationBlob
    (jsonOf : Attestation → List Nat) (parseJson : List Nat → Option Attestation)
    (a : Attestation)
    (hjson : parseJson (jsonOf a) = some a)
    (hbytes : ∀ b ∈ jsonOf a, b < 256) :
    decodeAttestationBlob parseJson (encodeAttestationBlob jsonOf a) = .ok a := by
  unfold decodeAttestationBlob encodeAttestationBlob
  rw [decodeBlobBytes_encodeBlobBytes (jsonOf a) hbytes]
  simp [hjson]

def jsonOfEx : Attestation → List Nat := fun _ => [104, 105]

/-- **C4, witness.** A concrete attestation survives encode-then-decode. -/
theorem decodeAttestationBlob_encodeAttestationBlob_witness :
    decodeAttestationBlob parseJsonEx (encodeAttestationBlob jsonOfEx attEx) = .ok attEx :=
  decodeAttestationBlob_encodeAttestationBlob jsonOfEx parseJsonEx attEx rfl (by decide)

end HapCore

namespace HapCore

def exD1 : Disclosure :=
  { repo := "acme/app", sha := "abc"
    changed_paths := ["src/b.ts", "src/a.ts"]
    risk_flags := ["migration", "infra"]
    domains := [("release_management", ⟨"p2", "o2", "t2"⟩), ("engineering", ⟨"p1", "o1", "t1"⟩)] }

def exD2 : Disclosure :=
  { repo := "acme/app", sha := "abc"
    changed_paths := ["src/a.ts", "src/b.ts"]
    risk_flags := ["infra", "migration"]
    domains := [("engineering", ⟨"p1", "o1", "t1"⟩), ("release_management", ⟨"p2", "o2", "t2"⟩)] }

/-- **C7, witness.** A concrete disclosure with shuffled paths, flags and
domain entries hashes identically. -/
theorem disclosureHash_perm_invariant_witness :
    disclosureHash (fun _ => "h0") exD1 = disclosureHash (fun _ => "h0") exD2 :=
  (disclosureHash_perm_invariant (fun _ => "h0") exD1 exD2 rfl rfl
    (by decide) (by decide) (by decide) (by decide) (by decide)).2.2

end HapCore

namespace HapCore

/-! ## Attestation text block parsing (`attestation.ts`, `parseAttestationBlock`)

The decoder locates the fence pair, trims and splits the interior into
nonempty lines, parses each on its first `=`, rejects duplicate keys, detects
the version from key presence (`domain`+`domain_disclosure_hash` → v0.3,
else `role`+`disclosure_hash` → v0.2) and requires every version key to be
present and nonempty; every failure returns `none`, never an exception. -/

inductive AttestationBlock where
  | v02 (profile role env path sha frame_hash disclosure_hash blob : String)
  | v03 (profile domain env path sha frame_hash domain_disclosure_hash blob : String)
deriving DecidableEq

def beginMarker : List Char := "---BEGIN HAP_ATTESTATION v=1---".data

def endMarker : List Char := "---END HAP_ATTESTATION---".data

/-- Fence location and interior line extraction (`indexOf` both markers,
reject missing or out-of-order fences, slice, trim, split, trim, drop empty
lines). -/
def blockLines (body : String) : Option (List (List Char)) :=
  match subIndexOf beginMarker body.data, subIndexOf endMarker body.data with
  | some bi, some ei =>
    if ei ≤ bi then none
    else
      some (((splitOnChar '\n'
        (jsTrim (sliceList body.data (bi + beginMarker.length) ei))).map jsTrim).filter
          (fun l => !l.isEmpty))
  | _, _ => none

/-- One interior line: split at the first `=` (`none` when the line has no
`=`). -/
def entryOf (line : List Char) : Option (String × String) :=
  match charIndexOf '=' line with
  | none => none
  | some i => some (String.mk (line.take i), String.mk (line.drop (i + 1)))

/-- The line loop: accumulate entries, rejecting a line without `=` and any
duplicate key. -/
def parseLines : List (List Char) → List (String × String) → Option (List (String × String))
  | [], acc => some acc
  | line :: rest, acc =>
    match entryOf line with
    | none => none
    | some (k, v) =>
      if k ∈ acc.map Prod.fst then none
      else parseLines rest (acc ++ [(k, v)])

/-- JS truthiness of `data[key]`: present and nonempty. -/
def truthy (o : Option String) : Bool :=
  match o with
  | none => false
  | some s => !(s == "")

def requiredKeysV03 : List String :=
  ["profile", "domain", "env", "path", "sha", "frame_hash", "domain_disclosure_hash", "blob"]

def requiredKeysV02 : List String :=
  ["profile", "role", "env", "path", "sha", "frame_hash", "disclosure_hash", "blob"]

def detectsV03 (data : List (String × String)) : Bool :=
  (alookup "domain" data).isSome && (alookup "domain_disclosure_hash" data).isSome

def detectsV02 (data : List (String × String)) : Bool :=
  (alookup "role" data).isSome && (alookup "disclosure_hash" data).isSome

def getS (k : String) (data : List (String × String)) : String := (alookup k data).getD ""

def mkBlockV03 (data : List (String × String)) : AttestationBlock :=
  .v03 (getS "profile" data) (getS "domain" data) (getS "env" data) (getS "path" data)
    (getS "sha" data) (getS "frame_hash" data) (getS "domain_disclosure_hash" data)
    (getS "blob" data)

def mkBlockV02 (data : List (String × String)) : AttestationBlock :=
  .v02 (getS "profile" data) (getS "role" data) (getS "env" data) (getS "path" data)
    (getS "sha" data) (getS "frame_hash" data) (getS "disclosure_hash" data)
    (getS "blob" data)

def parseAttestationBlock (body : String) : Option AttestationBlock :=
  match blockLines body with
  | none => none
  | some lines =>
    match parseLines lines [] with
    | none => none
    | some data =>
      if detectsV03 data then
        if requiredKeysV03.all (fun k => truthy (alookup k data)) then some (mkBlockV03 data)
        else none
      else if detectsV02 data then
        if requiredKeysV02.all (fun k => truthy (alookup k data)) then some (mkBlockV02 data)
        else none
      else none

theorem parseLines_none_of_noEq : ∀ (lines : List (List Char)) (acc : List (String × String)),
    (∃ l ∈ lines, entryOf l = none) → parseLines lines acc = none := by
  intro lines
  induction lines with
  | nil =>
    rintro acc ⟨l, hl, -⟩
    simp at hl
  | cons line rest ih =>
    rintro acc ⟨l, hl, hno⟩
    rcases List.mem_cons.mp hl with rfl | hm
    · simp only [parseLines, hno]
    · cases he : entryOf line with
      | none => simp [parseLines, he]
      | some kv =>
        obtain ⟨k, v⟩ := kv
        by_cases hc : k ∈ acc.map Prod.fst
        · simp [parseLines, he, hc]
        · simp only [parseLines, he]
          rw [if_neg hc]
          exact ih (acc ++ [(k, v)]) ⟨l, hm, hno⟩

theorem parseLines_isSome_iff : ∀ (lines : List (List Char)) (acc : List (String × String)),
    (acc.map Prod.fst).Nodup →
    ((parseLines lines acc).isSome = true ↔
      (∀ l ∈ lines, (entryOf l).isSome = true)
      ∧ (acc.map Prod.fst ++ lines.filterMap (fun l => (entryOf l).map Prod.fst)).Nodup) := by
  intro lines
  induction lines with
  | nil =>
    intro acc hacc
    simpa [parseLines] using hacc
  | cons line rest ih =>
    intro acc hacc
    cases he : entryOf line with
    | none =>
      simp only [parseLines, he, Option.isSome_none, Bool.false_eq_true, false_iff]
      rintro ⟨hall, -⟩
      have := hall line (List.mem_cons_self line rest)
      rw [he] at this
      simp at this
    | some kv =>
      obtain ⟨k, v⟩ := kv
      by_cases hc : k ∈ acc.map Prod.fst
      · rw [show parseLines (line :: rest) acc = none from by simp [parseLines, he, hc]]
        simp only [Option.isSome_none, Bool.false_eq_true, false_iff]
        rintro ⟨-, hnd⟩
        rw [List.filterMap_cons, he] at hnd
        simp only [Option.map_some'] at hnd
        rw [List.nodup_append] at hnd
        exact hnd.2.2 hc (List.mem_cons_self k _)
      · have hacc2 : ((acc ++ [(k, v)]).map Prod.fst).Nodup := by
          rw [List.map_append, List.nodup_append]
          refine ⟨hacc, by simp, ?_⟩
          intro a ha hmem
          simp only [List.map_cons, List.map_nil, List.mem_singleton] at hmem
          subst hmem
          exact hc ha
        have hstep : parseLines (line :: rest) acc = parseLines rest (acc ++ [(k, v)]) := by
          simp only [parseLines, he]
          rw [if_neg hc]
        rw [hstep, ih (acc ++ [(k, v)]) hacc2, List.filterMap_cons, he]
        simp only [Option.map_some', List.map_append]
        constructor
        · rintro ⟨hall, hnd⟩
          refine ⟨?_, ?_⟩
          · intro l hl
            rcases List.mem_cons.mp hl with rfl | hm
            · rw [he]; rfl
            · exact hall l hm
          · simpa [List.append_assoc] using hnd
        · rintro ⟨hall, hnd⟩
          refine ⟨fun l hl => hall l (List.mem_cons_of_mem line hl), ?_⟩
          simpa [List.append_assoc] using hnd

end HapCore

namespace HapCore

/-- **C8.** `parseAttestationBlock` returns `none` (and, being total, never
throws) when the fence pair is absent or inverted, when an interior nonempty
line lacks `=`, when a key repeats, when the version the keys declare is
neither v0.2 nor v0.3, or when a required key of the detected version is
missing or empty; and it returns a block exactly when a structurally complete
v0.2 or v0.3 block is present, built from the parsed entries. -/
theorem parseAttestationBlock_spec (body : String) :
    (blockLines body = none → parseAttestationBlock body = none)
    ∧ (∀ lines, blockLines body = some lines →
        ((∃ l ∈ lines, entryOf l = none) → parseAttestationBlock body = none)
        ∧ (¬(lines.filterMap (fun l => (entryOf l).map Prod.fst)).Nodup →
            parseAttestationBlock body = none)
        ∧ (∀ data, parseLines lines [] = some data →
            (detectsV03 data = true →
              ((∃ k ∈ requiredKeysV03, truthy (alookup k data) = false) →
                parseAttestationBlock body = none)
              ∧ ((∀ k ∈ requiredKeysV03, truthy (alookup k data) = true) →
                parseAttestationBlock body = some (mkBlockV03 data)))
            ∧ (detectsV03 data = false → detectsV02 data = true →
              ((∃ k ∈ requiredKeysV02, truthy (alookup k data) = false) →
                parseAttestationBlock body = none)
              ∧ ((∀ k ∈ requiredKeysV02, truthy (alookup k data) = true) →
                parseAttestationBlock body = some (mkBlockV02 data)))
            ∧ (detectsV03 data = false → detectsV02 data = false →
                parseAttestationBlock body = none)))
    ∧ (∀ b, parseAttestationBlock body = some b →
        ∃ lines data, blockLines body = some lines ∧ parseLines lines [] = some data
          ∧ ((detectsV03 data = true
                ∧ (∀ k ∈ requiredKeysV03, truthy (alookup k data) = true)
                ∧ b = mkBlockV03 data)
             ∨ (detectsV03 data = false ∧ detectsV02 data = true
                ∧ (∀ k ∈ requiredKeysV02, truthy (alookup k data) = true)
                ∧ b = mkBlockV02 data))) := by
  refine ⟨?_, ?_, ?_⟩
  · intro h
    simp only [parseAttestationBlock, h]
  · intro lines hbl
    refine ⟨?_, ?_, ?_⟩
    · intro hno
      simp only [parseAttestationBlock, hbl, parseLines_none_of_noEq lines [] hno]
    · intro hnd
      have hpl : parseLines lines [] = none := by
        cases hp : parseLines lines [] with
        | none => rfl
        | some data =>
          have := (parseLines_isSome_iff lines [] (by simp)).mp (by rw [hp]; rfl)
          simp only [List.map_nil, List.nil_append] at this
          exact absurd this.2 hnd
      simp only [parseAttestationBlock, hbl, hpl]
    · intro data hpl
      refine ⟨?_, ?_, ?_⟩
      · intro hv3
        constructor
        · rintro ⟨k, hk, hfalse⟩
          have hall : requiredKeysV03.all (fun k => truthy (alookup k data)) = false := by
            rw [List.all_eq_false]
            exact ⟨k, hk, by simp [hfalse]⟩
          simp [parseAttestationBlock, hbl, hpl, hv3, hall]
        · intro hall
          have hall' : requiredKeysV03.all (fun k => truthy (alookup k data)) = true := by
            rw [List.all_eq_true]
            intro k hk
            exact hall k hk
          simp [parseAttestationBlock, hbl, hpl, hv3, hall']
      · intro hv3 hv2
        constructor
        · rintro ⟨k, hk, hfalse⟩
          have hall : requiredKeysV02.all (fun k => truthy (alookup k data)) = false := by
            rw [List.all_eq_false]
            exact ⟨k, hk, by simp [hfalse]⟩
          simp [parseAttestationBlock, hbl, hpl, hv3, hv2, hall]
        · intro hall
          have hall' : requiredKeysV02.all (fun k => truthy (alookup k data)) = true := by
            rw [List.all_eq_true]
            intro k hk
            exact hall k hk
          simp [parseAttestationBlock, hbl, hpl, hv3, hv2, hall']
      · intro hv3 hv2
        simp [parseAttestationBlock, hbl, hpl, hv3, hv2]
  · intro b hb
    cases hbl : blockLines body with
    | none => simp [parseAttestationBlock, hbl] at hb
    | some lines =>
      cases hpl : parseLines lines [] with
      | none => simp [parseAttestationBlock, hbl, hpl] at hb
      | some data =>
        simp only [parseAttestationBlock, hbl, hpl] at hb
        refine ⟨lines, data, rfl, hpl, ?_⟩
        by_cases hv3 : detectsV03 data = true
        · rw [if_pos hv3] at hb
          cases hall : requiredKeysV03.all (fun k => truthy (alookup k data)) with
          | false => rw [hall] at hb; exact absurd hb (by simp)
          | true =>
            rw [hall, if_pos rfl] at hb
            exact Or.inl ⟨hv3, fun k hk => List.all_eq_true.mp hall k hk,
              (Option.some.inj hb).symm⟩
        · have hv3f : detectsV03 data = false := by
            cases h : detectsV03 data
            · rfl
            · exact absurd h hv3
          rw [if_neg (by rw [hv3f]; exact Bool.false_ne_true)] at hb
          by_cases hv2 : detectsV02 data = true
          · rw [if_pos hv2] at hb
            cases hall : requiredKeysV02.all (fun k => truthy (alookup k data)) with
            | false => rw [hall] at hb; exact absurd hb (by simp)
            | true =>
              rw [hall, if_pos rfl] at hb
              exact Or.inr ⟨hv3f, hv2, fun k hk => List.all_eq_true.mp hall k hk,
                (Option.some.inj hb).symm⟩
          · rw [if_neg hv2] at hb
            exact absurd hb (by simp)

end HapCore

namespace HapCore

def bodyEx : String :=
  "Deploy approved.\n---BEGIN HAP_ATTESTATION v=1---\nprofile=deploy-gate@0.2\nrole=engineering\nenv=prod\npath=deploy-prod-canary\nsha=abc123\nframe_hash=sha256:aa\ndisclosure_hash=sha256:bb\nblob=AbC\n---END HAP_ATTESTATION---\nthanks"

def linesEx0 : List (List Char) :=
  ["profile=deploy-gate@0.2".data, "role=engineering".data, "env=prod".data,
   "path=deploy-prod-canary".data, "sha=abc123".data, "frame_hash=sha256:aa".data,
   "disclosure_hash=sha256:bb".data, "blob=AbC".data]

def dataEx0 : List (String × String) :=
  [("profile", "deploy-gate@0.2"), ("role", "engineering"), ("env", "prod"),
   ("path", "deploy-prod-canary"), ("sha", "abc123"), ("frame_hash", "sha256:aa"),
   ("disclosure_hash", "sha256:bb"), ("blob", "AbC")]

set_option maxRecDepth 4096 in
/-- **C8, witness.** A comment containing a complete v0.2 block parses to that
block. -/
theorem parseAttestationBlock_spec_witness :
    parseAttestationBlock bodyEx = some (mkBlockV02 dataEx0) :=
  ((((parseAttestationBlock_spec bodyEx).2.1 linesEx0 (by decide)).2.2 dataEx0
    (by decide)).2.1 (by decide) (by decide)).2 (by decide)

end HapCore

namespace HapCore

/-! ## Attestation issuance (`apps/server/src/app/api/sp/attest/route.ts`)

`PROFILE_CONFIG` is re-exported from `lib/sp.ts` as `DEPLOY_GATE_PROFILE`
(both sp.ts variants in the repository carry the same `ttl` policy,
`{default: 3600, max: 86400}`).  `crypto.randomUUID()` and `Date.now()` enter
as the `uuid` and `now` parameters; signing and blob encoding happen after
payload construction and do not alter it, so the handlers here return the
signed payload.  The guarded `executionPaths[...]` lookup is written as an
`isNone` test followed by `getD`, equivalent to the source's `in` check
followed by indexing.  The request types carry an extra optional
`ttl_seconds` field (present in the UI's request type) to express that a
supplied TTL is ignored. -/

namespace AttestRoute

def PROFILE_CONFIG : Profile := DEPLOY_GATE_PROFILE

structure AttestationRequestV02 where
  profile_id : String
  frame_hash : String
  execution_path : String
  resolved_gates : List String
  decision_owners : List String
  decision_owner_scopes : List DecisionOwnerScope
  ttl_seconds : Option Nat
deriving DecidableEq

structure AttestationRequestV03 where
  profile_id : String
  frame_hash : String
  execution_path : String
  domain : String
  did : String
  env : String
  domain_disclosure_hash : String
  ttl_seconds : Option Nat
deriving DecidableEq

/-- Is a provided scope among the path's allowed scopes, or a `security`
scope standing in for an allowed `release_management` one? -/
def scopeAllowed (allowed : List ScopeReq) (s : DecisionOwnerScope) : Bool :=
  allowed.any (fun a => a.domain == s.domain && a.env == s.env)
    || (s.domain == "security"
        && allowed.any (fun a => a.domain == "release_management" && a.env == s.env))

/-- First provided scope that is not allowed for the path (the route's
`validateScopes` loop; it must also see at least one scope). -/
def findBadScope (allowed : List ScopeReq) : List DecisionOwnerScope →
    Option DecisionOwnerScope
  | [] => none
  | s :: rest => if scopeAllowed allowed s then findBadScope allowed rest else some s

def scopesValid (scopes : List DecisionOwnerScope) (allowed : List ScopeReq) : Bool :=
  (findBadScope allowed scopes).isNone && !scopes.isEmpty

def defaultPathConfig : ExecutionPathDef := ⟨"", [], []⟩

/-- `handleV02Request`, up to and including payload construction. -/
def handleV02Request (uuid : String) (now : Nat) (body : AttestationRequestV02) :
    Except String AttestationPayload :=
  if body.profile_id ≠ PROFILE_CONFIG.id then .error "UNKNOWN_PROFILE"
  else if (alookup body.execution_path PROFILE_CONFIG.executionPaths).isNone then
    .error "UNKNOWN_EXECUTION_PATH"
  else if !(PROFILE_CONFIG.requiredGates.filter
      (fun g => !body.resolved_gates.contains g)).isEmpty then
    .error "MISSING_GATES"
  else if !scopesValid body.decision_owner_scopes
      ((alookup body.execution_path PROFILE_CONFIG.executionPaths).getD
        defaultPathConfig).requiredScopes then
    .error "SCOPE_INVALID"
  else
    .ok (.v02 uuid body.profile_id body.frame_hash body.resolved_gates
      body.decision_owners body.decision_owner_scopes now (now + PROFILE_CONFIG.ttlDefault))

/-- `handleV03Request`, up to and including payload construction
(`validateDomain` requires the `{domain, env}` pair to be among the path's
required scopes). -/
def handleV03Request (uuid : String) (now : Nat) (body : AttestationRequestV03) :
    Except String AttestationPayload :=
  if body.profile_id ≠ PROFILE_CONFIG.id then .error "UNKNOWN_PROFILE"
  else if (alookup body.execution_path PROFILE_CONFIG.executionPaths).isNone then
    .error "UNKNOWN_EXECUTION_PATH"
  else if !(((alookup body.execution_path PROFILE_CONFIG.executionPaths).getD
      defaultPathConfig).requiredScopes.any
        (fun sc => sc.domain == body.domain && sc.env == body.env)) then
    .error "DOMAIN_INVALID"
  else
    .ok (.v03 uuid body.profile_id body.frame_hash
      [⟨body.domain, body.did, body.env, body.domain_disclosure_hash⟩]
      now (now + PROFILE_CONFIG.ttlDefault))

end AttestRoute

/-- **C10.** Every accepted signing request (v0.2 or v0.3) gets
`issued_at = now` and `expires_at = now + 3600`, the profile's default TTL;
the `ttl_seconds` a client may supply never affects the handler; hence
`expires_at > issued_at` always, and the validity window never exceeds the
profile's max TTL of 86400 — with no explicit max-TTL branch needed. -/
theorem attest_expiry_fixed_by_profile :
    (∀ (uuid : String) (now : Nat) (body : AttestRoute.AttestationRequestV02)
        (p : AttestationPayload),
      AttestRoute.handleV02Request uuid now body = .ok p →
        p.issued_at = now
        ∧ p.expires_at = now + 3600
        ∧ p.expires_at = p.issued_at + AttestRoute.PROFILE_CONFIG.ttlDefault
        ∧ p.issued_at < p.expires_at
        ∧ p.expires_at - p.issued_at ≤ AttestRoute.PROFILE_CONFIG.ttlMax)
    ∧ (∀ (uuid : String) (now : Nat) (body : AttestRoute.AttestationRequestV03)
        (p : AttestationPayload),
      AttestRoute.handleV03Request uuid now body = .ok p →
        p.issued_at = now
        ∧ p.expires_at = now + 3600
        ∧ p.expires_at = p.issued_at + AttestRoute.PROFILE_CONFIG.ttlDefault
        ∧ p.issued_at < p.expires_at
        ∧ p.expires_at - p.issued_at ≤ AttestRoute.PROFILE_CONFIG.ttlMax)
    ∧ (∀ (uuid : String) (now : Nat) (body : AttestRoute.AttestationRequestV02)
        (t : Option Nat),
      AttestRoute.handleV02Request uuid now { body with ttl_seconds := t }
        = AttestRoute.handleV02Request uuid now body)
    ∧ (∀ (uuid : String) (now : Nat) (body : AttestRoute.AttestationRequestV03)
        (t : Option Nat),
      AttestRoute.handleV03Request uuid now { body with ttl_seconds := t }
        = AttestRoute.handleV03Request uuid now body) := by
  refine ⟨?_, ?_, ?_, ?_⟩
  · intro uuid now body p h
    unfold AttestRoute.handleV02Request at h
    split_ifs at h
    obtain rfl := (Except.ok.inj h)
    refine ⟨rfl, rfl, rfl, ?_, ?_⟩
    · show now < now + 3600
      omega
    · show now + 3600 - now ≤ 86400
      omega
  · intro uuid now body p h
    unfold AttestRoute.handleV03Request at h
    split_ifs at h
    obtain rfl := (Except.ok.inj h)
    refine ⟨rfl, rfl, rfl, ?_, ?_⟩
    · show now < now + 3600
      omega
    · show now + 3600 - now ≤ 86400
      omega
  · intro uuid now body t
    cases body
    rfl
  · intro uuid now body t
    cases body
    rfl

def reqV02Ex : AttestRoute.AttestationRequestV02 :=
  { profile_id := "deploy-gate@0.3"
    frame_hash := "sha256:aa"
    execution_path := "deploy-prod-canary"
    resolved_gates := ["frame", "decision_owner", "disclosure_review", "commitment"]
    decision_owners := ["owner-1"]
    decision_owner_scopes := [⟨"did:demo:1", "engineering", "prod"⟩]
    ttl_seconds := some 999999 }

/-- **C10, witness.** A concrete accepted v0.2 request (which even asks for a
TTL of 999999 seconds) is issued with `expires_at = now + 3600`. -/
theorem attest_expiry_fixed_by_profile_witness :
    (AttestationPayload.v02 "uuid-1" "deploy-gate@0.3" "sha256:aa"
        ["frame", "decision_owner", "disclosure_review", "commitment"] ["owner-1"]
        [⟨"did:demo:1", "engineering", "prod"⟩] 1000 4600).issued_at = 1000
    ∧ (AttestationPayload.v02 "uuid-1" "deploy-gate@0.3" "sha256:aa"
        ["frame", "decision_owner", "disclosure_review", "commitment"] ["owner-1"]
        [⟨"did:demo:1", "engineering", "prod"⟩] 1000 4600).expires_at = 1000 + 3600
    ∧ (AttestationPayload.v02 "uuid-1" "deploy-gate@0.3" "sha256:aa"
        ["frame", "decision_owner", "disclosure_review", "commitment"] ["owner-1"]
        [⟨"did:demo:1", "engineering", "prod"⟩] 1000 4600).expires_at
      = (AttestationPayload.v02 "uuid-1" "deploy-gate@0.3" "sha256:aa"
        ["frame", "decision_owner", "disclosure_review", "commitment"] ["owner-1"]
        [⟨"did:demo:1", "engineering", "prod"⟩] 1000 4600).issued_at
          + AttestRoute.PROFILE_CONFIG.ttlDefault
    ∧ (AttestationPayload.v02 "uuid-1" "deploy-gate@0.3" "sha256:aa"
        ["frame", "decision_owner", "disclosure_review", "commitment"] ["owner-1"]
        [⟨"did:demo:1", "engineering", "prod"⟩] 1000 4600).issued_at
      < (AttestationPayload.v02 "uuid-1" "deploy-gate@0.3" "sha256:aa"
        ["frame", "decision_owner", "disclosure_review", "commitment"] ["owner-1"]
        [⟨"did:demo:1", "engineering", "prod"⟩] 1000 4600).expires_at
    ∧ (AttestationPayload.v02 "uuid-1" "deploy-gate@0.3" "sha256:aa"
        ["frame", "decision_owner", "disclosure_review", "commitment"] ["owner-1"]
        [⟨"did:demo:1", "engineering", "prod"⟩] 1000 4600).expires_at
      - (AttestationPayload.v02 "uuid-1" "deploy-gate@0.3" "sha256:aa"
        ["frame", "decision_owner", "disclosure_review", "commitment"] ["owner-1"]
        [⟨"did:demo:1", "engineering", "prod"⟩] 1000 4600).issued_at
      ≤ AttestRoute.PROFILE_CONFIG.ttlMax :=
  attest_expiry_fixed_by_profile.1 "uuid-1" 1000 reqV02Ex
    (.v02 "uuid-1" "deploy-gate@0.3" "sha256:aa"
      ["frame", "decision_owner", "disclosure_review", "commitment"] ["owner-1"]
      [⟨"did:demo:1", "engineering", "prod"⟩] 1000 4600) (by decide)

end HapCore
